import Mathlib

/-!
# Verification of the light-bike simulation core

A shallow embedding of the deterministic simulation engine of the
`light-bike3` repository: the occupancy grid and decision helpers of
`bot.js`, the per-entity state machine of `bike.js` (later revision,
the one with jump support), and the tick resolver `Game._tick` of
`game.js`.  Rendering state (meshes, lights, segment geometry) is not
modelled: it is read by nothing in the simulation core.

Where a source file ships two concatenated revisions (`bike.js` and the
bot module), the later revision is the effective one and is the one
embedded here.
-/

namespace LightBike

/-- `GRID_SIZE` from constants.js. -/
def GRID_SIZE : Int := 80

/-- A grid cell `(gx, gz)`. -/
abbrev Cell := Int × Int

/-- The occupancy grid: `none` is JS `null` (free), `some i` is the id of
the claiming bike.  `game.js` stores it as an 80×80 array of
`bike.id | null`; only in-bounds cells are ever written. -/
abbrev Grid := Cell → Option Nat

/-- Write one cell of the grid (the JS assignment `grid[gz][gx] = v`). -/
def setCell (g : Grid) (c : Cell) (v : Option Nat) : Grid :=
  fun c' => if c' = c then v else g c'

/-- The four cardinal directions of constants.js. -/
inductive Dir | NORTH | EAST | SOUTH | WEST
deriving DecidableEq, Repr

/-- A queued turn: JS `'LEFT' | 'RIGHT'`. -/
inductive Side | LEFT | RIGHT
deriving DecidableEq, Repr

open Dir Side

/-- `DIR_VECTOR` from constants.js. -/
def DIR_VECTOR : Dir → Int × Int
  | NORTH => (0, -1)
  | EAST  => (1, 0)
  | SOUTH => (0, 1)
  | WEST  => (-1, 0)

/-- `TURN_LEFT` from constants.js. -/
def TURN_LEFT : Dir → Dir
  | NORTH => WEST
  | WEST  => SOUTH
  | SOUTH => EAST
  | EAST  => NORTH

/-- `TURN_RIGHT` from constants.js. -/
def TURN_RIGHT : Dir → Dir
  | NORTH => EAST
  | EAST  => SOUTH
  | SOUTH => WEST
  | WEST  => NORTH

/-- `inBounds` from bot.js. -/
def inBounds (gx gz : Int) : Bool :=
  gx ≥ 0 && gx < GRID_SIZE && gz ≥ 0 && gz < GRID_SIZE

/-- `isFree` from bot.js: in bounds and unclaimed. -/
def isFree (gx gz : Int) (grid : Grid) : Bool :=
  inBounds gx gz && grid (gx, gz) = none

/-- The loop body of `lookAhead` from bot.js: the running index `i`
starts at 1 and the loop runs while `i ≤ steps`; `r = steps + 1 - i`
counts the remaining iterations.  The first blocked cell at offset `i`
yields `i - 1`; if no cell among offsets `1..steps` is blocked the
result is `steps`. -/
def lookAheadGo (gx gz vx vz : Int) (steps : Nat) (grid : Grid) : Nat → Nat → Nat
  | _, 0 => steps
  | i, r + 1 =>
    if !isFree (gx + vx * i) (gz + vz * i) grid then i - 1
    else lookAheadGo gx gz vx vz steps grid (i + 1) r

/-- `lookAhead(gx, gz, dir, steps, grid)` from bot.js. -/
def lookAhead (gx gz : Int) (dir : Dir) (steps : Nat) (grid : Grid) : Nat :=
  lookAheadGo gx gz (DIR_VECTOR dir).1 (DIR_VECTOR dir).2 steps grid 1 steps

/-- The neighbour offsets `[[1,0],[-1,0],[0,1],[0,-1]]` of `floodFill`. -/
def dirs4 : List (Int × Int) := [(1, 0), (-1, 0), (0, 1), (0, -1)]

/-- One neighbour probe of the `floodFill` loop body: skip if already
visited or not free, otherwise append to both the visited set and the
queue.  JS `Set` iteration order is insertion order, so the visited set
is a duplicate-free list. -/
def bfsStep (grid : Grid) (c : Cell) (vq : List Cell × List Cell)
    (d : Int × Int) : List Cell × List Cell :=
  let n : Cell := (c.1 + d.1, c.2 + d.2)
  if n ∈ vq.1 then vq
  else if isFree n.1 n.2 grid then (vq.1 ++ [n], vq.2 ++ [n])
  else vq

/-- Processing one dequeued cell appends the same (possibly empty) block
of new cells to the visited list and to the queue. -/
theorem bfsFold_spec (grid : Grid) (c : Cell) :
    ∀ (ds : List (Int × Int)) (v q : List Cell),
      ∃ ex, ds.foldl (bfsStep grid c) (v, q) = (v ++ ex, q ++ ex) := by
  intro ds
  induction ds with
  | nil => intro v q; exact ⟨[], by simp⟩
  | cons d ds ih =>
    intro v q
    show ∃ ex, ds.foldl (bfsStep grid c) (bfsStep grid c (v, q) d) = _
    unfold bfsStep
    dsimp only
    split
    · exact ih v q
    · split
      · obtain ⟨ex, hex⟩ := ih (v ++ [(c.1 + d.1, c.2 + d.2)]) (q ++ [(c.1 + d.1, c.2 + d.2)])
        exact ⟨(c.1 + d.1, c.2 + d.2) :: ex, by simpa using hex⟩
      · exact ih v q

/-- The `while (queue.length && visited.size < cap)` loop of `floodFill`
from bot.js: dequeue from the front, enqueue discovered free neighbours
at the back. -/
def bfsLoop (grid : Grid) (cap : Nat) (visited queue : List Cell) : List Cell :=
  match queue with
  | [] => visited
  | c :: rest =>
    if h : visited.length < cap then
      bfsLoop grid cap
        (dirs4.foldl (bfsStep grid c) (visited, rest)).1
        (dirs4.foldl (bfsStep grid c) (visited, rest)).2
    else visited
termination_by (cap - visited.length, queue.length)
decreasing_by
  obtain ⟨ex, hex⟩ := bfsFold_spec grid c dirs4 visited rest
  rw [hex]
  cases ex with
  | nil =>
    simp only [List.append_nil]
    apply Prod.Lex.right
    simp
  | cons a ex =>
    apply Prod.Lex.left
    simp only [List.length_append, List.length_cons]
    omega

/-- `floodFill(gx, gz, grid, cap)` from bot.js. -/
def floodFill (gx gz : Int) (grid : Grid) (cap : Nat) : Nat :=
  if !isFree gx gz grid then 0
  else (bfsLoop grid cap [(gx, gz)] [(gx, gz)]).length

/-! ## Breadth-first-search theory for `floodFill` -/

/-- One grid move: the target cell is free and is one of the four
cardinal neighbours of the source cell. -/
def BfsEdge (grid : Grid) (a b : Cell) : Prop :=
  isFree b.1 b.2 grid = true ∧ ∃ d ∈ dirs4, b = (a.1 + d.1, a.2 + d.2)

/-- Reachability through free cells, as counted by `floodFill`. -/
def Reach (grid : Grid) (a b : Cell) : Prop :=
  Relation.ReflTransGen (BfsEdge grid) a b

/-- Detailed description of processing one dequeued cell `c`: the block
`ex` of discovered cells is short, fresh, free, made of neighbours of
`c`, keeps the visited list duplicate-free, and after the fold every
free neighbour of `c` is visited. -/
theorem bfsFold_strong (grid : Grid) (c : Cell) :
    ∀ (ds : List (Int × Int)) (v q : List Cell),
      ∃ ex, ds.foldl (bfsStep grid c) (v, q) = (v ++ ex, q ++ ex) ∧
        ex.length ≤ ds.length ∧
        (∀ n ∈ ex, isFree n.1 n.2 grid = true ∧ n ∉ v ∧
          ∃ d ∈ ds, n = (c.1 + d.1, c.2 + d.2)) ∧
        (v.Nodup → (v ++ ex).Nodup) ∧
        (∀ d ∈ ds, isFree (c.1 + d.1) (c.2 + d.2) grid = true →
          (c.1 + d.1, c.2 + d.2) ∈ v ++ ex) := by
  intro ds
  induction ds with
  | nil =>
    intro v q
    exact ⟨[], by simp⟩
  | cons d ds ih =>
    intro v q
    show ∃ ex, ds.foldl (bfsStep grid c) (bfsStep grid c (v, q) d) = _ ∧ _
    unfold bfsStep
    dsimp only
    by_cases hmem : (c.1 + d.1, c.2 + d.2) ∈ v
    · rw [if_pos hmem]
      obtain ⟨ex, h1, h2, h3, h4, h5⟩ := ih v q
      refine ⟨ex, h1, by simpa using Nat.le_succ_of_le h2, ?_, h4, ?_⟩
      · intro n hn
        obtain ⟨hf, hnv, d', hd', hn'⟩ := h3 n hn
        exact ⟨hf, hnv, d', List.mem_cons_of_mem _ hd', hn'⟩
      · intro d' hd' hfree
        rcases List.mem_cons.mp hd' with rfl | hd'
        · exact List.mem_append_left _ hmem
        · exact h5 d' hd' hfree
    · rw [if_neg hmem]
      by_cases hfree : isFree (c.1 + d.1) (c.2 + d.2) grid
      · rw [if_pos hfree]
        obtain ⟨ex, h1, h2, h3, h4, h5⟩ :=
          ih (v ++ [(c.1 + d.1, c.2 + d.2)]) (q ++ [(c.1 + d.1, c.2 + d.2)])
        refine ⟨(c.1 + d.1, c.2 + d.2) :: ex, by simpa using h1, by simpa using h2,
          ?_, ?_, ?_⟩
        · intro n hn
          rcases List.mem_cons.mp hn with rfl | hn
          · exact ⟨hfree, hmem, d, List.mem_cons_self _ _, rfl⟩
          · obtain ⟨hf, hnv, d', hd', hn'⟩ := h3 n hn
            exact ⟨hf, fun hc => hnv (List.mem_append_left _ hc), d',
              List.mem_cons_of_mem _ hd', hn'⟩
        · intro hv
          have : (v ++ [(c.1 + d.1, c.2 + d.2)]).Nodup := by
            simp [List.nodup_append, hv, hmem]
          simpa using h4 this
        · intro d' hd' hfree'
          rcases List.mem_cons.mp hd' with rfl | hd'
          · have : (c.1 + d'.1, c.2 + d'.2) ∈ v ++ [(c.1 + d'.1, c.2 + d'.2)] := by simp
            have := List.mem_append_left ex this
            simpa using this
          · have := h5 d' hd' hfree'
            simpa using this
      · rw [if_neg hfree]
        obtain ⟨ex, h1, h2, h3, h4, h5⟩ := ih v q
        refine ⟨ex, h1, by simpa using Nat.le_succ_of_le h2, ?_, h4, ?_⟩
        · intro n hn
          obtain ⟨hf, hnv, d', hd', hn'⟩ := h3 n hn
          exact ⟨hf, hnv, d', List.mem_cons_of_mem _ hd', hn'⟩
        · intro d' hd' hfree'
          rcases List.mem_cons.mp hd' with rfl | hd'
          · exact absurd hfree' hfree
          · exact h5 d' hd' hfree'

/-- The invariant of the `floodFill` BFS loop. -/
structure BfsInv (grid : Grid) (start : Cell) (v q : List Cell) : Prop where
  nodup : v.Nodup
  sub : ∀ x ∈ q, x ∈ v
  free : ∀ x ∈ v, isFree x.1 x.2 grid = true
  reach : ∀ x ∈ v, Reach grid start x
  closed : ∀ x ∈ v, x ∉ q → ∀ d ∈ dirs4,
    isFree (x.1 + d.1) (x.2 + d.2) grid = true → (x.1 + d.1, x.2 + d.2) ∈ v
  startmem : start ∈ v

/-- One BFS iteration preserves the loop invariant. -/
theorem bfsInv_step (grid : Grid) (start : Cell) (v rest : List Cell) (c : Cell)
    (inv : BfsInv grid start v (c :: rest)) :
    BfsInv grid start
      (dirs4.foldl (bfsStep grid c) (v, rest)).1
      (dirs4.foldl (bfsStep grid c) (v, rest)).2 := by
  obtain ⟨ex, h1, _h2, h3, h4, h5⟩ := bfsFold_strong grid c dirs4 v rest
  rw [h1]
  have hcv : c ∈ v := inv.sub c (List.mem_cons_self _ _)
  refine ⟨h4 inv.nodup, ?_, ?_, ?_, ?_, List.mem_append_left _ inv.startmem⟩
  · intro x hx
    rcases List.mem_append.mp hx with hx | hx
    · exact List.mem_append_left _ (inv.sub x (List.mem_cons_of_mem _ hx))
    · exact List.mem_append_right _ hx
  · intro x hx
    rcases List.mem_append.mp hx with hx | hx
    · exact inv.free x hx
    · exact (h3 x hx).1
  · intro x hx
    rcases List.mem_append.mp hx with hx | hx
    · exact inv.reach x hx
    · obtain ⟨hf, _, d, hd, rfl⟩ := h3 x hx
      exact Relation.ReflTransGen.tail (inv.reach c hcv) ⟨hf, d, hd, rfl⟩
  · intro x hx hxq d hd hfree
    rcases List.mem_append.mp hx with hx | hx
    · by_cases hxc : x = c
      · subst hxc
        exact h5 d hd hfree
      · have hxrest : x ∉ rest := fun hr => hxq (List.mem_append_left _ hr)
        have : x ∉ c :: rest := by simp [hxc, hxrest]
        exact List.mem_append_left _ (inv.closed x hx this d hd hfree)
    · exact absurd (List.mem_append_right rest hx) hxq

/-- The visited list never grows past `cap + 3`: a batch of at most four
neighbours is added only while the size is still below `cap`. -/
theorem bfsLoop_length_le (grid : Grid) (cap : Nat) :
    ∀ v q : List Cell, v.length ≤ cap + 3 →
      (bfsLoop grid cap v q).length ≤ cap + 3 := by
  intro v q
  induction v, q using bfsLoop.induct grid cap with
  | case1 v =>
    intro hv
    simpa [bfsLoop] using hv
  | case2 v c rest hlt ih =>
    intro _
    rw [bfsLoop, dif_pos hlt]
    apply ih
    obtain ⟨ex, h1, h2, _⟩ := bfsFold_strong grid c dirs4 v rest
    rw [h1]
    simp only [List.length_append]
    simp only [dirs4, List.length_cons, List.length_nil] at h2
    omega
  | case3 v c rest hlt =>
    intro hv
    rw [bfsLoop, dif_neg hlt]
    exact hv

/-- Soundness: the loop returns a duplicate-free list of free cells
reachable from the start, and its result list contains the input
visited list. -/
theorem bfsLoop_sound (grid : Grid) (cap : Nat) (start : Cell) :
    ∀ v q : List Cell, BfsInv grid start v q →
      (bfsLoop grid cap v q).Nodup ∧
      (∀ x ∈ bfsLoop grid cap v q,
        isFree x.1 x.2 grid = true ∧ Reach grid start x) := by
  intro v q
  induction v, q using bfsLoop.induct grid cap with
  | case1 v =>
    intro inv
    rw [bfsLoop]
    exact ⟨inv.nodup, fun x hx => ⟨inv.free x hx, inv.reach x hx⟩⟩
  | case2 v c rest hlt ih =>
    intro inv
    rw [bfsLoop, dif_pos hlt]
    exact ih (bfsInv_step grid start v rest c inv)
  | case3 v c rest hlt =>
    intro inv
    rw [bfsLoop, dif_neg hlt]
    exact ⟨inv.nodup, fun x hx => ⟨inv.free x hx, inv.reach x hx⟩⟩

/-- Completeness: if the loop stopped because the queue emptied (which
is forced whenever the result is still shorter than `cap`), every free
cell reachable from the start was visited. -/
theorem bfsLoop_complete (grid : Grid) (cap : Nat) (start : Cell) :
    ∀ v q : List Cell, BfsInv grid start v q →
      (bfsLoop grid cap v q).length < cap →
      ∀ x : Cell, Reach grid start x → x ∈ bfsLoop grid cap v q := by
  intro v q
  induction v, q using bfsLoop.induct grid cap with
  | case1 v =>
    intro inv _ x hx
    rw [bfsLoop] at *
    induction hx with
    | refl => exact inv.startmem
    | tail _hab hbc ih =>
      obtain ⟨hf, d, hd, rfl⟩ := hbc
      exact inv.closed _ ih (List.not_mem_nil _) d hd hf
  | case2 v c rest hlt ih =>
    intro inv hlen
    rw [bfsLoop, dif_pos hlt] at *
    exact ih (bfsInv_step grid start v rest c inv) hlen
  | case3 v c rest hlt =>
    intro inv hlen
    rw [bfsLoop, dif_neg hlt] at hlen
    omega

/-- The invariant holds at the start of the loop when the start cell is
free. -/
theorem bfsInv_init (grid : Grid) (start : Cell)
    (hfree : isFree start.1 start.2 grid = true) :
    BfsInv grid start [start] [start] := by
  refine ⟨List.nodup_singleton _, fun x hx => hx, ?_, ?_, ?_, List.mem_singleton_self _⟩
  · intro x hx
    rw [List.mem_singleton.mp hx]
    exact hfree
  · intro x hx
    rw [List.mem_singleton.mp hx]
    exact Relation.ReflTransGen.refl
  · intro x hx hxq
    exact absurd hx hxq

/-! ## The Bike state machine (bike.js, later revision) -/

/-- The simulation-relevant state of a `Bike`.  Render-only fields
(meshes, materials, the point light, trail segment geometry, `segStart`,
`_wasJumping`) are omitted: nothing in the simulation core reads them. -/
structure BikeS where
  id : Nat
  gx : Int
  gz : Int
  dir : Dir
  alive : Bool
  pendingTurn : Option Side
  jumpCount : Nat
  /-- `_jumpStartMs`; `0` means "never started a jump". -/
  jumpStartMs : Nat
  /-- `_trailGridCells`, in push order. -/
  trail : List Cell
deriving DecidableEq, Repr

/-- Modelled from the spec: `MAX_JUMPS` is imported from constants.js,
but the packaged constants.js revision predates the jump feature and
lacks it.  The spec fixes jump charges to the range `0..MAX_JUMPS`, and
the jump HUD of game.js renders exactly two charge pips, fixing
`MAX_JUMPS = 2`. -/
def MAX_JUMPS : Nat := 2

/-- `Bike.isJumping()`:
`_jumpStartMs > 0 && performance.now() - _jumpStartMs < JUMP_DURATION_MS`.
`J` stands for `JUMP_DURATION_MS` (also absent from the packaged
constants.js; kept as an explicit parameter) and `now` for the current
clock reading, which is never earlier than a recorded `_jumpStartMs`. -/
def isJumping (J now : Nat) (b : BikeS) : Bool :=
  b.jumpStartMs > 0 && now - b.jumpStartMs < J

/-- `Bike.queueTurn(side)`. -/
def queueTurn (b : BikeS) (side : Side) : BikeS :=
  if b.alive then { b with pendingTurn := some side } else b

/-- `Bike.jump()`: refuse when dead, out of charges, or already
airborne; otherwise consume one charge and restart the airborne timer. -/
def jump (J now : Nat) (b : BikeS) : BikeS :=
  if !b.alive || b.jumpCount ≥ MAX_JUMPS || isJumping J now b then b
  else { b with jumpCount := b.jumpCount + 1, jumpStartMs := now }

/-- `Bike.peekNext()`: the cell reached next tick, accounting for the
pending turn, without mutating state. -/
def peekNext (b : BikeS) : Cell :=
  let d := match b.pendingTurn with
    | some LEFT => TURN_LEFT b.dir
    | some RIGHT => TURN_RIGHT b.dir
    | none => b.dir
  (b.gx + (DIR_VECTOR d).1, b.gz + (DIR_VECTOR d).2)

/-- `Bike.step()`: consume the pending turn (rotating the heading),
then advance one cell along the heading.  The trail-mesh bookkeeping the
JS method also performs is render-only. -/
def step (b : BikeS) : BikeS :=
  let b1 := match b.pendingTurn with
    | some LEFT => { b with dir := TURN_LEFT b.dir, pendingTurn := none }
    | some RIGHT => { b with dir := TURN_RIGHT b.dir, pendingTurn := none }
    | none => b
  { b1 with gx := b1.gx + (DIR_VECTOR b1.dir).1, gz := b1.gz + (DIR_VECTOR b1.dir).2 }

/-- `Bike.recordTrailCell(gx, gz)`. -/
def recordTrailCell (b : BikeS) (c : Cell) : BikeS :=
  { b with trail := b.trail ++ [c] }

/-- `Bike.die()` (the material/light dimming is render-only). -/
def die (b : BikeS) : BikeS := { b with alive := false }

/-- The grid half of `Bike.clearTrail(grid)`: null out every recorded
cell still owned by this bike (`if (grid[gz]?.[gx] === this.id)`). -/
def clearTrailGrid (b : BikeS) (g : Grid) : Grid :=
  b.trail.foldl (fun g c => if g c = some b.id then setCell g c none else g) g

/-- The bike half of `Bike.clearTrail(grid)`: the recorded cell list is
emptied (mesh clean-up omitted). -/
def clearTrailBike (b : BikeS) : BikeS := { b with trail := [] }

/-- The `Bike` constructor state: alive, no pending turn, no recorded
trail cells, `jumpCount = 0`, `_jumpStartMs = 0`. -/
def mkBike (id : Nat) (gx gz : Int) (dir : Dir) : BikeS :=
  ⟨id, gx, gz, dir, true, none, 0, 0, []⟩

/-- The operations callable on one bike after construction. -/
inductive BikeOp
  | opQueueTurn (side : Side)
  | opJump (now : Nat)
  | opStep
  | opRecordTrailCell (c : Cell)
  | opDie
  | opClearTrail

/-- Apply one operation to a bike (`J` is `JUMP_DURATION_MS`). -/
def applyOp (J : Nat) (b : BikeS) : BikeOp → BikeS
  | .opQueueTurn side => queueTurn b side
  | .opJump now => jump J now b
  | .opStep => step b
  | .opRecordTrailCell c => recordTrailCell b c
  | .opDie => die b
  | .opClearTrail => clearTrailBike b

/-! ## The decision module (bot.js, later revision) -/

/-- One entry of the candidate list of `safeOptions`, after its target
cell has been computed: the turn to queue (`none` = straight), the
resulting heading, and the target cell `(nx, nz)`. -/
structure MoveOpt where
  turn : Option Side
  dir : Dir
  nx : Int
  nz : Int
deriving DecidableEq, Repr

/-- The candidate list `[straight, turn-left, turn-right]` of
`safeOptions`, with target cells. -/
def candidates (b : BikeS) : List MoveOpt :=
  [ { turn := none, dir := b.dir,
      nx := b.gx + (DIR_VECTOR b.dir).1, nz := b.gz + (DIR_VECTOR b.dir).2 },
    { turn := some LEFT, dir := TURN_LEFT b.dir,
      nx := b.gx + (DIR_VECTOR (TURN_LEFT b.dir)).1,
      nz := b.gz + (DIR_VECTOR (TURN_LEFT b.dir)).2 },
    { turn := some RIGHT, dir := TURN_RIGHT b.dir,
      nx := b.gx + (DIR_VECTOR (TURN_RIGHT b.dir)).1,
      nz := b.gz + (DIR_VECTOR (TURN_RIGHT b.dir)).2 } ]

/-- `safeOptions(bike, grid)`: the candidates whose immediate target
cell is free. -/
def safeOptions (b : BikeS) (grid : Grid) : List MoveOpt :=
  (candidates b).filter (fun o => isFree o.nx o.nz grid)

/-- A scored option, as built by the personality functions.  Scores are
exact rationals; every score built below is a multiple of 1/5, on which
rational and JS float arithmetic agree. -/
structure ScoredOpt where
  opt : MoveOpt
  score : ℚ
deriving DecidableEq, Repr

/-- Stable insertion for the descending sort: `x` is placed before the
first strictly lower-scoring element, so among equal scores earlier
elements stay first. -/
def insertDesc (x : ScoredOpt) : List ScoredOpt → List ScoredOpt
  | [] => [x]
  | y :: ys => if x.score ≥ y.score then x :: y :: ys else y :: insertDesc x ys

/-- `scored.sort((a, b) => b.score - a.score)`: `Array.prototype.sort`
is stable, which this insertion sort reproduces. -/
def sortDesc : List ScoredOpt → List ScoredOpt
  | [] => []
  | x :: xs => insertDesc x (sortDesc xs)

/-- The leftmost highest-scoring element: the running best is replaced
only by a strictly higher score.  This is what taking `scored[0]` of the
stable descending sort selects. -/
def firstMax (x : ScoredOpt) : List ScoredOpt → ScoredOpt
  | [] => x
  | y :: ys => if y.score > x.score then firstMax y ys else firstMax x ys

/-- The avoidant score of one option:
`floodFill(o.nx, o.nz, grid) * 10 + lookAhead(o.nx, o.nz, o.dir, 12, grid)`
(flood-fill cap is the default 300). -/
def avoidantScore (grid : Grid) (o : MoveOpt) : ScoredOpt :=
  { opt := o,
    score := (floodFill o.nx o.nz grid 300 : ℚ) * 10
      + (lookAhead o.nx o.nz o.dir 12 grid : ℚ) }

/-- `decideAvoidant(bike, grid)`: score each safe option, sort
descending, queue the best option's turn. -/
def decideAvoidant (b : BikeS) (grid : Grid) : Option Side :=
  let opts := safeOptions b grid
  if opts = [] then none
  else
    match sortDesc (opts.map (avoidantScore grid)) with
    | [] => none
    | best :: _ => best.opt.turn

/-- The engaging score of one option: `reach * 5 + space * 0.8` with
`reach = lookAhead(..., 20, ...)` and `space = floodFill(..., 200)`. -/
def engagingScore (grid : Grid) (o : MoveOpt) : ScoredOpt :=
  { opt := o,
    score := (lookAhead o.nx o.nz o.dir 20 grid : ℚ) * 5
      + (floodFill o.nx o.nz grid 200 : ℚ) * 0.8 }

/-- `decideEngaging(bike, grid)`. -/
def decideEngaging (b : BikeS) (grid : Grid) : Option Side :=
  let opts := safeOptions b grid
  if opts = [] then none
  else
    match sortDesc (opts.map (engagingScore grid)) with
    | [] => none
    | best :: _ => best.opt.turn

/-- The Manhattan distance used by `decideAggressive`. -/
def manhattan (ax az bx bz : Int) : Nat :=
  (ax - bx).natAbs + (az - bz).natAbs

/-- The aggressive score of one option against the predicted player
cell `(predX, predZ)`: options with fewer than 4 clear cells of
look-ahead (`lookAhead(..., 6, ...) < 4`) score `-999`; the rest score
`(80 - interceptDist) * 0.6 + space * 0.4` with
`space = floodFill(..., 150)`. -/
def aggressiveScore (grid : Grid) (predX predZ : Int) (o : MoveOpt) : ScoredOpt :=
  if lookAhead o.nx o.nz o.dir 6 grid < 4 then { opt := o, score := (-999 : ℚ) }
  else
    { opt := o,
      score := ((80 : ℚ) - (manhattan o.nx o.nz predX predZ : ℚ)) * 0.6
        + (floodFill o.nx o.nz grid 150 : ℚ) * 0.4 }

/-- `decideAggressive(bike, grid, playerBike)` (later bot.js revision):
avoidant when the player is absent or dead; no decision when boxed in;
engaging beyond 30 cells of Manhattan distance; otherwise score against
the player's position extrapolated 3 ticks straight ahead and fall back
to avoidant when the best score is negative. -/
def decideAggressive (b : BikeS) (grid : Grid) (player : Option BikeS) : Option Side :=
  match player with
  | none => decideAvoidant b grid
  | some p =>
    if !p.alive then decideAvoidant b grid
    else
      let opts := safeOptions b grid
      if opts = [] then none
      else
        if manhattan b.gx b.gz p.gx p.gz > 30 then decideEngaging b grid
        else
          let pv := DIR_VECTOR p.dir
          match sortDesc (opts.map (aggressiveScore grid (p.gx + pv.1 * 3) (p.gz + pv.2 * 3))) with
          | [] => none
          | best :: _ =>
            if best.score < 0 then decideAvoidant b grid else best.opt.turn

/-! ## The tick resolver (`Game._tick`, game.js) -/

/-- The grid-claim operation: `Game._spawnBikes` ("Pre-mark starting
cell") and the commit phase of `Game._tick` claim a cell with the plain
assignment `this.grid[gz][gx] = bike.id`. -/
def claim (g : Grid) (c : Cell) (ownerId : Nat) : Grid := setCell g c (some ownerId)

/-- The out-of-bounds test of `Game._tick`. -/
def oobCell (c : Cell) : Bool :=
  c.1 < 0 || c.1 ≥ GRID_SIZE || c.2 < 0 || c.2 ≥ GRID_SIZE

/-- The per-bike collision test of `Game._tick` ("Collision
detection"): an out-of-bounds target kills even while jumping; a
claimed target cell kills only when grounded. -/
def collisionDying (J now : Nat) (grid : Grid) (b : BikeS) : Bool :=
  oobCell (peekNext b) || (!(isJumping J now b) && (grid (peekNext b)).isSome)

/-- The head-on resolution loop of `Game._tick`: `seen` is the
`Map` from target cell to the first bike id seen aiming there, `dy` the
accumulating `dying` set. -/
def headOnLoop : List (Nat × Cell) → (Cell → Option Nat) → Finset Nat → Finset Nat
  | [], _, dy => dy
  | (i, c) :: rest, seen, dy =>
    if i ∈ dy then headOnLoop rest seen dy
    else match seen c with
      | some j => headOnLoop rest seen (insert i (insert j dy))
      | none => headOnLoop rest (fun c' => if c' = c then some i else seen c') dy

/-- Ids marked dying by the individual wall/trail checks. -/
def dyingPhase1 (J now : Nat) (grid : Grid) (bikes : List BikeS) : Finset Nat :=
  ((bikes.filter fun b => b.alive && collisionDying J now grid b).map (·.id)).toFinset

/-- The target cells recorded in `nextCells`, in bike-list order. -/
def nextPairs (bikes : List BikeS) : List (Nat × Cell) :=
  (bikes.filter (·.alive)).map fun b => (b.id, peekNext b)

/-- The complete dying set of one tick: the individual wall/trail
checks followed by head-on resolution. -/
def tickDying (J now : Nat) (grid : Grid) (bikes : List BikeS) : Finset Nat :=
  headOnLoop (nextPairs bikes) (fun _ => none) (dyingPhase1 J now grid bikes)

/-- The "Kill + clear trails" phase: sequentially over the bike list,
dying bikes die and release their still-owned cells from the grid. -/
def applyDeaths (dy : Finset Nat) : List BikeS → Grid → List BikeS × Grid
  | [], g => ([], g)
  | b :: bs, g =>
    if b.id ∈ dy then
      let r := applyDeaths dy bs (clearTrailGrid b g)
      (clearTrailBike (die b) :: r.1, r.2)
    else
      let r := applyDeaths dy bs g
      (b :: r.1, r.2)

/-- The "Step survivors" phase: each alive bike marks its current cell
(grounded only: claim it in the grid and record it as a trail cell),
then steps. -/
def commitMoves (J now : Nat) : List BikeS → Grid → List BikeS × Grid
  | [], g => ([], g)
  | b :: bs, g =>
    if !b.alive then
      let r := commitMoves J now bs g
      (b :: r.1, r.2)
    else if isJumping J now b then
      let r := commitMoves J now bs g
      (step b :: r.1, r.2)
    else
      let r := commitMoves J now bs (claim g (b.gx, b.gz) b.id)
      (step (recordTrailCell b (b.gx, b.gz)) :: r.1, r.2)

/-- Phases 2–5 of `Game._tick`: collision detection, head-on
resolution, death commits, move commits.  Phase 1 (bot decisions) only
sets `pendingTurn` fields and is modelled by quantifying over them;
phase 6 (the win check) and the camera/HUD work mutate no simulation
state. -/
def tickCore (J now : Nat) (bikes : List BikeS) (grid : Grid) : List BikeS × Grid :=
  let r := applyDeaths (tickDying J now grid bikes) bikes grid
  commitMoves J now r.1 r.2

/-! ## Head-on loop characterisation -/

/-- What the head-on loop adds, described without reference to
processing order, from an arbitrary intermediate state: an id is in the
final dying set iff it is already dying, or its pair aims at a cell
already occupied in `seen` or shared with another not-yet-dying pair,
or it occupies `seen` at a cell some not-yet-dying pair aims at. -/
def headOnAfter (rest : List (Nat × Cell)) (seen : Cell → Option Nat)
    (dy : Finset Nat) (i : Nat) : Prop :=
  i ∈ dy
  ∨ (∃ p ∈ rest, p.1 = i ∧ i ∉ dy ∧
      ((seen p.2).isSome = true ∨ ∃ q ∈ rest, q.1 ≠ i ∧ q.2 = p.2 ∧ q.1 ∉ dy))
  ∨ (∃ c, seen c = some i ∧ ∃ q ∈ rest, q.2 = c ∧ q.1 ∉ dy)

/-- The spec-shaped description at the start of the loop (`seen` empty):
an entity dies in the head-on phase iff it was already dying, or some
other not-yet-dying entity aims at the same target cell. -/
def headOnSpec (pairs : List (Nat × Cell)) (dy₀ : Finset Nat) (i : Nat) : Prop :=
  i ∈ dy₀
  ∨ ∃ p ∈ pairs, p.1 = i ∧ i ∉ dy₀ ∧
      ∃ q ∈ pairs, q.1 ≠ i ∧ q.2 = p.2 ∧ q.1 ∉ dy₀

instance (rest : List (Nat × Cell)) (dy : Finset Nat) (i : Nat) :
    Decidable (headOnSpec rest dy i) := by
  unfold headOnSpec
  infer_instance

theorem headOnLoop_mem :
    ∀ (rest : List (Nat × Cell)) (seen : Cell → Option Nat) (dy : Finset Nat) (i : Nat),
      (rest.map Prod.fst).Nodup →
      (∀ c j, seen c = some j → j ∉ rest.map Prod.fst) →
      (i ∈ headOnLoop rest seen dy ↔ headOnAfter rest seen dy i) := by
  intro rest
  induction rest with
  | nil =>
    intro seen dy i _ _
    simp [headOnLoop, headOnAfter]
  | cons hd tl ih =>
    obtain ⟨a, c⟩ := hd
    intro seen dy i hnodup hseen
    have hcons : (a :: tl.map Prod.fst).Nodup := by simpa using hnodup
    have hna : a ∉ tl.map Prod.fst := (List.nodup_cons.mp hcons).1
    have hntl : (tl.map Prod.fst).Nodup := (List.nodup_cons.mp hcons).2
    have hseentl : ∀ c' j, seen c' = some j → j ∉ tl.map Prod.fst := by
      intro c' j h
      have := hseen c' j h
      simp only [List.map_cons, List.mem_cons] at this
      exact fun hm => this (Or.inr hm)
    by_cases hady : a ∈ dy
    · -- the pair (a, c) is skipped and can play no role
      have hstep : headOnLoop ((a, c) :: tl) seen dy = headOnLoop tl seen dy := by
        show (if a ∈ dy then headOnLoop tl seen dy
          else match seen c with
            | some j => headOnLoop tl seen (insert a (insert j dy))
            | none => headOnLoop tl (fun c' => if c' = c then some a else seen c') dy)
          = headOnLoop tl seen dy
        rw [if_pos hady]
      rw [hstep]
      rw [ih seen dy i hntl hseentl]
      unfold headOnAfter
      constructor
      · rintro (h | ⟨p, hp, hpi, hio, hin⟩ | ⟨c', hc', q, hq, hqc, hqd⟩)
        · exact Or.inl h
        · refine Or.inr (Or.inl ⟨p, List.mem_cons_of_mem _ hp, hpi, hio, ?_⟩)
          rcases hin with h | ⟨q, hq, hq1, hq2, hq3⟩
          · exact Or.inl h
          · exact Or.inr ⟨q, List.mem_cons_of_mem _ hq, hq1, hq2, hq3⟩
        · exact Or.inr (Or.inr ⟨c', hc', q, List.mem_cons_of_mem _ hq, hqc, hqd⟩)
      · rintro (h | ⟨p, hp, hpi, hio, hin⟩ | ⟨c', hc', q, hq, hqc, hqd⟩)
        · exact Or.inl h
        · rcases List.mem_cons.mp hp with rfl | hp
          · exact absurd (hpi ▸ hady) hio
          · refine Or.inr (Or.inl ⟨p, hp, hpi, hio, ?_⟩)
            rcases hin with h | ⟨q, hq, hq1, hq2, hq3⟩
            · exact Or.inl h
            · rcases List.mem_cons.mp hq with rfl | hq
              · exact absurd hady hq3
              · exact Or.inr ⟨q, hq, hq1, hq2, hq3⟩
        · rcases List.mem_cons.mp hq with rfl | hq
          · exact absurd hady hqd
          · exact Or.inr (Or.inr ⟨c', hc', q, hq, hqc, hqd⟩)
    · rcases hsc : seen c with _ | j
      · -- fresh cell: record (a, c) in seen
        have hstep : headOnLoop ((a, c) :: tl) seen dy
            = headOnLoop tl (fun c' => if c' = c then some a else seen c') dy := by
          show (if a ∈ dy then headOnLoop tl seen dy
            else match seen c with
              | some j => headOnLoop tl seen (insert a (insert j dy))
              | none => headOnLoop tl (fun c' => if c' = c then some a else seen c') dy)
            = _
          rw [if_neg hady, hsc]
        rw [hstep]
        have hseen' : ∀ c' j, (fun c' => if c' = c then some a else seen c') c' = some j →
            j ∉ tl.map Prod.fst := by
          intro c' j h
          dsimp only at h
          split at h
          · cases h
            exact hna
          · exact hseentl c' j h
        rw [ih _ dy i hntl hseen']
        unfold headOnAfter
        constructor
        · rintro (h | ⟨p, hp, hpi, hio, hin⟩ | ⟨c', hc', q, hq, hqc, hqd⟩)
          · exact Or.inl h
          · -- p ∈ tl aims at i's cell; translate the seen-clause
            rcases hin with h | ⟨q, hq, hq1, hq2, hq3⟩
            · by_cases hpc : p.2 = c
              · -- occupied by the new entry a: partner (a, c)
                refine Or.inr (Or.inl ⟨p, List.mem_cons_of_mem _ hp, hpi, hio,
                  Or.inr ⟨(a, c), List.mem_cons_self _ _, ?_, hpc.symm, hady⟩⟩)
                intro hai
                apply hna
                have hm : p.1 ∈ tl.map Prod.fst := List.mem_map_of_mem Prod.fst hp
                rwa [hpi, ← hai] at hm
              · refine Or.inr (Or.inl ⟨p, List.mem_cons_of_mem _ hp, hpi, hio, Or.inl ?_⟩)
                simpa [hpc] using h
            · exact Or.inr (Or.inl ⟨p, List.mem_cons_of_mem _ hp, hpi, hio,
                Or.inr ⟨q, List.mem_cons_of_mem _ hq, hq1, hq2, hq3⟩⟩)
          · -- i occupies seen'
            dsimp only at hc'
            by_cases hcc : c' = c
            · -- i = a: a was recorded, some later pair hits c
              rw [if_pos hcc] at hc'
              cases hc'
              subst hcc
              refine Or.inr (Or.inl ⟨(a, c'), List.mem_cons_self _ _, rfl, hady,
                Or.inr ⟨q, List.mem_cons_of_mem _ hq, ?_, hqc, hqd⟩⟩)
              intro haq
              exact hna (haq ▸ List.mem_map_of_mem Prod.fst hq)
            · rw [if_neg hcc] at hc'
              exact Or.inr (Or.inr ⟨c', hc', q, List.mem_cons_of_mem _ hq, hqc, hqd⟩)
        · rintro (h | ⟨p, hp, hpi, hio, hin⟩ | ⟨c', hc', q, hq, hqc, hqd⟩)
          · exact Or.inl h
          · rcases List.mem_cons.mp hp with rfl | hp
            · -- i = a: seen c was empty, so a partner pair in tl aims at c
              dsimp only at hpi hin
              subst hpi
              rcases hin with h | ⟨q, hq, hq1, hq2, hq3⟩
              · rw [hsc] at h
                simp at h
              · rcases List.mem_cons.mp hq with rfl | hq
                · exact absurd rfl hq1
                · refine Or.inr (Or.inr ⟨c, by simp, q, hq, hq2, hq3⟩)
            · rcases hin with h | ⟨q, hq, hq1, hq2, hq3⟩
              · refine Or.inr (Or.inl ⟨p, hp, hpi, hio, Or.inl ?_⟩)
                dsimp only
                split
                · simp
                · exact h
              · rcases List.mem_cons.mp hq with rfl | hq
                · -- the partner is (a, c) itself: p aims at c, now in seen'
                  refine Or.inr (Or.inl ⟨p, hp, hpi, hio, Or.inl ?_⟩)
                  dsimp only
                  rw [if_pos hq2.symm]
                  rfl
                · exact Or.inr (Or.inl ⟨p, hp, hpi, hio,
                    Or.inr ⟨q, hq, hq1, hq2, hq3⟩⟩)
          · -- i occupies the old seen at c' (so c' ≠ c), partner in cons
            have hia : i ≠ a := by
              intro hia
              subst hia
              exact hseen c' i hc' (by simp)
            have hcc : c' ≠ c := by
              intro hcc
              rw [hcc, hsc] at hc'
              cases hc'
            rcases List.mem_cons.mp hq with rfl | hq
            · exact absurd hqc.symm hcc
            · refine Or.inr (Or.inr ⟨c', ?_, q, hq, hqc, hqd⟩)
              dsimp only
              rw [if_neg hcc]
              exact hc'
      · -- the cell is occupied by j: both a and j die
        have hstep : headOnLoop ((a, c) :: tl) seen dy
            = headOnLoop tl seen (insert a (insert j dy)) := by
          show (if a ∈ dy then headOnLoop tl seen dy
            else match seen c with
              | some j => headOnLoop tl seen (insert a (insert j dy))
              | none => headOnLoop tl (fun c' => if c' = c then some a else seen c') dy)
            = _
          rw [if_neg hady, hsc]
        rw [hstep]
        have hja : j ≠ a := by
          intro h
          exact hseen c j hsc (by simp [h])
        have hjtl : j ∉ tl.map Prod.fst := hseentl c j hsc
        rw [ih seen _ i hntl hseentl]
        unfold headOnAfter
        by_cases hia : i = a
        · subst hia
          constructor
          · intro _
            exact Or.inr (Or.inl ⟨(i, c), List.mem_cons_self _ _, rfl, hady,
              Or.inl (by rw [hsc]; rfl)⟩)
          · intro _
            exact Or.inl (Finset.mem_insert_self _ _)
        · by_cases hij : i = j
          · subst hij
            constructor
            · intro _
              exact Or.inr (Or.inr ⟨c, hsc, (a, c), List.mem_cons_self _ _, rfl, hady⟩)
            · intro _
              exact Or.inl (Finset.mem_insert_of_mem (Finset.mem_insert_self _ _))
          · have hdy' : ∀ k, k ∈ tl.map Prod.fst → (k ∈ insert a (insert j dy) ↔ k ∈ dy) := by
              intro k hk
              simp only [Finset.mem_insert]
              constructor
              · rintro (rfl | rfl | h)
                · exact absurd hk hna
                · exact absurd hk hjtl
                · exact h
              · exact fun h => Or.inr (Or.inr h)
            have hidy' : i ∈ insert a (insert j dy) ↔ i ∈ dy := by
              simp only [Finset.mem_insert]
              constructor
              · rintro (rfl | rfl | h)
                · exact absurd rfl hia
                · exact absurd rfl hij
                · exact h
              · exact fun h => Or.inr (Or.inr h)
            constructor
            · rintro (h | ⟨p, hp, hpi, hio, hin⟩ | ⟨c', hc', q, hq, hqc, hqd⟩)
              · exact Or.inl (hidy'.mp h)
              · refine Or.inr (Or.inl ⟨p, List.mem_cons_of_mem _ hp, hpi, fun hd =>
                  hio (hidy'.mpr hd), ?_⟩)
                rcases hin with h | ⟨q, hq, hq1, hq2, hq3⟩
                · exact Or.inl h
                · refine Or.inr ⟨q, List.mem_cons_of_mem _ hq, hq1, hq2, fun hd =>
                    hq3 ((hdy' q.1 (List.mem_map_of_mem Prod.fst hq)).mpr hd)⟩
              · refine Or.inr (Or.inr ⟨c', hc', q, List.mem_cons_of_mem _ hq, hqc,
                  fun hd => hqd ((hdy' q.1 (List.mem_map_of_mem Prod.fst hq)).mpr hd)⟩)
            · rintro (h | ⟨p, hp, hpi, hio, hin⟩ | ⟨c', hc', q, hq, hqc, hqd⟩)
              · exact Or.inl (hidy'.mpr h)
              · rcases List.mem_cons.mp hp with rfl | hp
                · exact absurd hpi.symm hia
                · refine Or.inr (Or.inl ⟨p, hp, hpi, fun hd => hio (hidy'.mp hd), ?_⟩)
                  rcases hin with h | ⟨q, hq, hq1, hq2, hq3⟩
                  · exact Or.inl h
                  · rcases List.mem_cons.mp hq with rfl | hq
                    · -- partner (a, c): but then p.2 = c is occupied by j in seen
                      refine Or.inl ?_
                      have hpc : p.2 = c := hq2.symm
                      rw [hpc, hsc]
                      rfl
                    · exact Or.inr ⟨q, hq, hq1, hq2, fun hd =>
                        hq3 ((hdy' q.1 (List.mem_map_of_mem Prod.fst hq)).mp hd)⟩
              · rcases List.mem_cons.mp hq with rfl | hq
                · -- partner (a, c): then seen c = some j = some i, i = j — excluded
                  have hci : seen c = some i := by rw [← hqc] at hc'; exact hc'
                  rw [hsc] at hci
                  cases hci
                  exact absurd rfl hij
                · exact Or.inr (Or.inr ⟨c', hc', q, hq, hqc, fun hd =>
                    hqd ((hdy' q.1 (List.mem_map_of_mem Prod.fst hq)).mp hd)⟩)

theorem headOnAfter_empty (pairs : List (Nat × Cell)) (dy : Finset Nat) (i : Nat) :
    headOnAfter pairs (fun _ => none) dy i ↔ headOnSpec pairs dy i := by
  unfold headOnAfter headOnSpec
  simp

theorem headOnSpec_perm {pairs pairs' : List (Nat × Cell)} (h : pairs.Perm pairs')
    (dy : Finset Nat) (i : Nat) : headOnSpec pairs dy i ↔ headOnSpec pairs' dy i := by
  unfold headOnSpec
  simp only [h.mem_iff]

theorem nextPairs_fst (bikes : List BikeS) :
    (nextPairs bikes).map Prod.fst = (bikes.filter (·.alive)).map BikeS.id := by
  unfold nextPairs
  rw [List.map_map]
  rfl

theorem nextPairs_fst_nodup (bikes : List BikeS)
    (hnd : (bikes.map BikeS.id).Nodup) : ((nextPairs bikes).map Prod.fst).Nodup := by
  rw [nextPairs_fst]
  exact ((List.filter_sublist bikes).map BikeS.id).nodup hnd

/-! ## Stable-sort selection theory

`scored.sort((a, b) => b.score - a.score)[0]` of a stable sort is the
leftmost maximal-score element, `firstMax`. -/

theorem firstMax_score_le (l : List ScoredOpt) :
    ∀ x : ScoredOpt, x.score ≤ (firstMax x l).score := by
  induction l with
  | nil => intro x; exact le_refl _
  | cons y ys ih =>
    intro x
    show x.score ≤ (if y.score > x.score then firstMax y ys else firstMax x ys).score
    split
    · exact le_trans (le_of_lt (by assumption)) (ih y)
    · exact ih x

theorem firstMax_mem_le (l : List ScoredOpt) :
    ∀ x : ScoredOpt, ∀ z ∈ l, z.score ≤ (firstMax x l).score := by
  induction l with
  | nil => intro x z hz; exact absurd hz (List.not_mem_nil z)
  | cons y ys ih =>
    intro x z hz
    show z.score ≤ (if y.score > x.score then firstMax y ys else firstMax x ys).score
    rcases List.mem_cons.mp hz with rfl | hz
    · split
      · exact firstMax_score_le ys z
      · exact le_trans (le_of_not_lt (by assumption)) (firstMax_score_le ys x)
    · split
      · exact ih y z hz
      · exact ih x z hz

theorem firstMax_cases (l : List ScoredOpt) :
    ∀ x : ScoredOpt, firstMax x l = x ∨ firstMax x l ∈ l := by
  induction l with
  | nil => intro x; exact Or.inl rfl
  | cons y ys ih =>
    intro x
    rw [firstMax]
    split
    · rcases ih y with h | h
      · exact Or.inr (by rw [h]; exact List.mem_cons_self _ _)
      · exact Or.inr (List.mem_cons_of_mem _ h)
    · rcases ih x with h | h
      · exact Or.inl h
      · exact Or.inr (List.mem_cons_of_mem _ h)

theorem firstMax_of_all_le (l : List ScoredOpt) :
    ∀ x : ScoredOpt, (∀ z ∈ l, z.score ≤ x.score) → firstMax x l = x := by
  induction l with
  | nil => intro x _; rfl
  | cons y ys ih =>
    intro x hle
    show (if y.score > x.score then firstMax y ys else firstMax x ys) = x
    rw [if_neg (not_lt_of_le (hle y (List.mem_cons_self _ _)))]
    exact ih x fun z hz => hle z (List.mem_cons_of_mem _ hz)

theorem firstMax_seed_switch (l : List ScoredOpt) :
    ∀ x y : ScoredOpt, y.score ≤ x.score →
      x.score < (firstMax y l).score → firstMax x l = firstMax y l := by
  induction l with
  | nil =>
    intro x y hyx hlt
    exact absurd (lt_of_le_of_lt hyx hlt) (lt_irrefl _)
  | cons z zs ih =>
    intro x y hyx hlt
    simp only [firstMax] at hlt ⊢
    by_cases hzx : z.score > x.score
    · have hzy : z.score > y.score := lt_of_le_of_lt hyx hzx
      rw [if_pos hzx, if_pos hzy]
    · rw [if_neg hzx]
      by_cases hzy : z.score > y.score
      · rw [if_pos hzy] at hlt ⊢
        exact ih x z (le_of_not_lt hzx) hlt
      · rw [if_neg hzy] at hlt ⊢
        exact ih x y hyx hlt

theorem sortDesc_head (xs : List ScoredOpt) :
    ∀ x : ScoredOpt, ∃ t, sortDesc (x :: xs) = firstMax x xs :: t := by
  induction xs with
  | nil => intro x; exact ⟨[], rfl⟩
  | cons y ys ih =>
    intro x
    obtain ⟨t, ht⟩ := ih y
    show ∃ t', insertDesc x (sortDesc (y :: ys)) = _ :: t'
    rw [ht]
    show ∃ t', (if x.score ≥ (firstMax y ys).score then _ else _) = _ :: t'
    by_cases hge : x.score ≥ (firstMax y ys).score
    · rw [if_pos hge]
      have hyx : ¬ y.score > x.score :=
        not_lt_of_le (le_trans (firstMax_score_le ys y) hge)
      have : firstMax x (y :: ys) = x := by
        show (if y.score > x.score then firstMax y ys else firstMax x ys) = x
        rw [if_neg hyx]
        exact firstMax_of_all_le ys x fun z hz =>
          le_trans (firstMax_mem_le ys y z hz) hge
      exact ⟨_, by rw [this]⟩
    · rw [if_neg hge]
      have hlt : x.score < (firstMax y ys).score := lt_of_not_le hge
      have : firstMax x (y :: ys) = firstMax y ys := by
        show (if y.score > x.score then firstMax y ys else firstMax x ys) = _
        by_cases hyx : y.score > x.score
        · rw [if_pos hyx]
        · rw [if_neg hyx]
          exact firstMax_seed_switch ys x y (le_of_not_lt hyx) hlt
      exact ⟨_, by rw [this]⟩

/-! ## Helper lemmas for the jump-counter invariant -/

theorem step_jumpCount (b : BikeS) : (step b).jumpCount = b.jumpCount := by
  unfold step
  rcases h : b.pendingTurn with _ | s
  · simp [h]
  · cases s <;> simp [h]

theorem applyOp_jumpCount_spec (J : Nat) (b : BikeS) (op : BikeOp) :
    (applyOp J b op).jumpCount = b.jumpCount ∨
    ∃ now, op = BikeOp.opJump now ∧
      (applyOp J b op).jumpCount = b.jumpCount + 1 ∧ b.jumpCount < MAX_JUMPS := by
  cases op with
  | opQueueTurn side =>
    left
    simp only [applyOp, queueTurn]
    split <;> rfl
  | opJump now =>
    simp only [applyOp, jump]
    split
    · exact Or.inl rfl
    · rename_i hcond
      simp only [Bool.or_eq_true, Bool.not_eq_true', decide_eq_true_eq, not_or] at hcond
      exact Or.inr ⟨now, rfl, rfl, by omega⟩
  | opStep =>
    left
    simp only [applyOp]
    exact step_jumpCount b
  | opRecordTrailCell c => exact Or.inl rfl
  | opDie => exact Or.inl rfl
  | opClearTrail => exact Or.inl rfl

theorem applyOp_jumpCount_le (J : Nat) (b : BikeS) (op : BikeOp)
    (h : b.jumpCount ≤ MAX_JUMPS) : (applyOp J b op).jumpCount ≤ MAX_JUMPS := by
  rcases applyOp_jumpCount_spec J b op with heq | ⟨now, _, heq, hlt⟩
  · rw [heq]; exact h
  · rw [heq]; omega

theorem foldl_applyOp_jumpCount_le (J : Nat) (ops : List BikeOp) :
    ∀ b : BikeS, b.jumpCount ≤ MAX_JUMPS →
      (ops.foldl (applyOp J) b).jumpCount ≤ MAX_JUMPS := by
  induction ops with
  | nil => intro b h; exact h
  | cons op ops ih =>
    intro b h
    exact ih (applyOp J b op) (applyOp_jumpCount_le J b op h)

/-! ## Claim theorems: the bike state machine and the grid claim -/

/-- C8: `jump()` is a no-op while already airborne — the jump-charge
count and the airborne timer are identical before and after the call —
and likewise when the bike is dead or out of jump charges. -/
theorem claim_C8_jump_noop (J now : Nat) (b : BikeS) :
    (isJumping J now b = true → jump J now b = b) ∧
    (b.alive = false → jump J now b = b) ∧
    (MAX_JUMPS ≤ b.jumpCount → jump J now b = b) := by
  refine ⟨fun h => ?_, fun h => ?_, fun h => ?_⟩ <;>
    · unfold jump
      rw [if_pos (by simp [h])]

/-- C8 witness: an airborne bike (timer running), a dead bike, and a
bike out of charges, each left unchanged by `jump()`. -/
theorem claim_C8_jump_noop_witness :
    (isJumping 100 60 ⟨1, 5, 5, Dir.EAST, true, none, 0, 50, []⟩ = true ∧
      jump 100 60 ⟨1, 5, 5, Dir.EAST, true, none, 0, 50, []⟩
        = ⟨1, 5, 5, Dir.EAST, true, none, 0, 50, []⟩) ∧
    jump 100 60 ⟨2, 5, 5, Dir.EAST, false, none, 0, 0, []⟩
      = ⟨2, 5, 5, Dir.EAST, false, none, 0, 0, []⟩ ∧
    jump 100 60 ⟨3, 5, 5, Dir.EAST, true, none, 2, 0, []⟩
      = ⟨3, 5, 5, Dir.EAST, true, none, 2, 0, []⟩ :=
  ⟨⟨by decide, (claim_C8_jump_noop 100 60 _).1 (by decide)⟩,
    (claim_C8_jump_noop 100 60 _).2.1 (by decide),
    (claim_C8_jump_noop 100 60 _).2.2 (by decide)⟩

/-- C10: the used-jump counter starts at 0, is changed only by a
successful `jump()` — which increments it by exactly one, and only from
below `MAX_JUMPS` — and stays at most `MAX_JUMPS` across every sequence
of operations. -/
theorem claim_C10_jump_counter (J : Nat) (id : Nat) (gx gz : Int) (d : Dir)
    (ops : List BikeOp) :
    (mkBike id gx gz d).jumpCount = 0 ∧
    (∀ (b : BikeS) (op : BikeOp),
      (applyOp J b op).jumpCount = b.jumpCount ∨
      ∃ now, op = BikeOp.opJump now ∧
        (applyOp J b op).jumpCount = b.jumpCount + 1 ∧ b.jumpCount < MAX_JUMPS) ∧
    (ops.foldl (applyOp J) (mkBike id gx gz d)).jumpCount ≤ MAX_JUMPS := by
  exact ⟨rfl, applyOp_jumpCount_spec J,
    foldl_applyOp_jumpCount_le J ops _ (by simp [mkBike, MAX_JUMPS])⟩

/-- C2 as stated is false: claiming the already-claimed cell `(5,5)`
(owner 2) with claimant 1 overwrites the owner instead of no-opping. -/
theorem claim_C2_counterexample :
    claim (fun c => if c = ((5 : Int), (5 : Int)) then some 2 else none) (5, 5) 1 (5, 5)
        = some 1 ∧
    ¬ claim (fun c => if c = ((5 : Int), (5 : Int)) then some 2 else none) (5, 5) 1 (5, 5)
        = some 2 := by
  constructor <;> decide

/-- C2 amended: the grid claim operation is an unconditional overwrite —
after `claim(gx, gz, ownerId)` the cell is owned by `ownerId` regardless
of any previous owner, and no other cell changes. -/
theorem claim_C2_claim_overwrites (g : Grid) (c : Cell) (ownerId : Nat) :
    claim g c ownerId c = some ownerId ∧
    ∀ c' : Cell, c' ≠ c → claim g c ownerId c' = g c' := by
  constructor
  · simp [claim, setCell]
  · intro c' hc
    simp [claim, setCell, hc]

/-- C2 amended witness: overwrite at the claimed cell, no change
elsewhere. -/
theorem claim_C2_claim_overwrites_witness :
    claim (fun c => if c = ((5 : Int), (5 : Int)) then some 2 else none) (5, 5) 7 (5, 5)
        = some 7 ∧
    claim (fun c => if c = ((5 : Int), (5 : Int)) then some 2 else none) (5, 5) 7 (5, 6)
        = none :=
  ⟨(claim_C2_claim_overwrites _ _ _).1,
    by
      have := (claim_C2_claim_overwrites
        (fun c => if c = ((5 : Int), (5 : Int)) then some 2 else none) (5, 5) 7).2
        (5, 6) (by decide)
      simpa using this⟩

/-- C4: in the collision-detection phase, an out-of-bounds next cell
marks the bike dying whether or not it is airborne; a claimed in-bounds
next cell marks exactly the grounded bikes — an airborne bike skips the
claimed-cell check but not the bounds check. -/
theorem claim_C4_airborne_checks (J now : Nat) (grid : Grid) (b : BikeS) :
    (oobCell (peekNext b) = true → collisionDying J now grid b = true) ∧
    (isJumping J now b = true → oobCell (peekNext b) = false →
      collisionDying J now grid b = false) ∧
    (isJumping J now b = false → oobCell (peekNext b) = false →
      (collisionDying J now grid b = true ↔ (grid (peekNext b)).isSome = true)) := by
  unfold collisionDying
  refine ⟨fun h => by simp [h], fun hj ho => by simp [hj, ho], fun hj ho => by simp [hj, ho]⟩

/-- C4 witness: an airborne bike dies at the east wall, survives over a
claimed cell, and its grounded twin dies on the same claimed cell. -/
theorem claim_C4_airborne_checks_witness :
    collisionDying 100 60 (fun _ => none)
        ⟨1, 79, 10, Dir.EAST, true, none, 1, 50, []⟩ = true ∧
    collisionDying 100 60 (fun c => if c = ((11 : Int), (10 : Int)) then some 2 else none)
        ⟨1, 10, 10, Dir.EAST, true, none, 1, 50, []⟩ = false ∧
    collisionDying 100 60 (fun c => if c = ((11 : Int), (10 : Int)) then some 2 else none)
        ⟨1, 10, 10, Dir.EAST, true, none, 0, 0, []⟩ = true :=
  ⟨(claim_C4_airborne_checks 100 60 _ _).1 (by decide),
    (claim_C4_airborne_checks 100 60 _ _).2.1 (by decide) (by decide),
    ((claim_C4_airborne_checks 100 60 _ _).2.2 (by decide) (by decide)).mpr (by decide)⟩

/-! ## Claim theorems: the decision module -/

theorem sortDesc_map_head (f : MoveOpt → ScoredOpt) (o₀ : MoveOpt) (os : List MoveOpt) :
    ∃ t, sortDesc ((o₀ :: os).map f) = firstMax (f o₀) (os.map f) :: t := by
  rw [List.map_cons]
  exact sortDesc_head _ _

/-- C6: AVOIDANT scores each safe option as
`10 × floodFill(cap 300) + lookAhead(12 steps)` and selects the first
maximal-score option in the enumeration order straight, left, right
(`firstMax` replaces the running best only on a strictly higher score);
in particular, when all three candidates are safe and score equally —
e.g. an entity on a fully open grid — it selects straight, queueing no
turn. -/
theorem claim_C6_avoidant_selection (b : BikeS) (grid : Grid) :
    (∀ o₀ os, safeOptions b grid = o₀ :: os →
      decideAvoidant b grid
          = (firstMax (avoidantScore grid o₀) (os.map (avoidantScore grid))).opt.turn
        ∧ (∀ o ∈ safeOptions b grid, (avoidantScore grid o).score
            ≤ (firstMax (avoidantScore grid o₀) (os.map (avoidantScore grid))).score)
        ∧ ((∀ o ∈ os, (avoidantScore grid o).score ≤ (avoidantScore grid o₀).score) →
            decideAvoidant b grid = o₀.turn))
    ∧ (safeOptions b grid = candidates b →
        (∀ o ∈ candidates b, ∀ o' ∈ candidates b,
          (avoidantScore grid o).score = (avoidantScore grid o').score) →
        decideAvoidant b grid = none) := by
  have main : ∀ o₀ os, safeOptions b grid = o₀ :: os →
      decideAvoidant b grid
          = (firstMax (avoidantScore grid o₀) (os.map (avoidantScore grid))).opt.turn
        ∧ (∀ o ∈ safeOptions b grid, (avoidantScore grid o).score
            ≤ (firstMax (avoidantScore grid o₀) (os.map (avoidantScore grid))).score)
        ∧ ((∀ o ∈ os, (avoidantScore grid o).score ≤ (avoidantScore grid o₀).score) →
            decideAvoidant b grid = o₀.turn) := by
    intro o₀ os hsafe
    obtain ⟨t, ht⟩ := sortDesc_map_head (avoidantScore grid) o₀ os
    have hval : decideAvoidant b grid
        = (firstMax (avoidantScore grid o₀) (os.map (avoidantScore grid))).opt.turn := by
      unfold decideAvoidant
      rw [hsafe, if_neg (List.cons_ne_nil o₀ os), ht]
    refine ⟨hval, ?_, ?_⟩
    · intro o ho
      rw [hsafe] at ho
      rcases List.mem_cons.mp ho with rfl | ho
      · exact firstMax_score_le _ _
      · exact firstMax_mem_le _ _ _ (List.mem_map_of_mem _ ho)
    · intro hle
      have hfm := firstMax_of_all_le (os.map (avoidantScore grid)) (avoidantScore grid o₀)
        (by
          intro z hz
          obtain ⟨o, ho, rfl⟩ := List.mem_map.mp hz
          exact hle o ho)
      rw [hval, hfm]
      rfl
  refine ⟨main, ?_⟩
  intro hall heq
  obtain ⟨_hv, _hm, htie⟩ := main
    { turn := none, dir := b.dir,
      nx := b.gx + (DIR_VECTOR b.dir).1, nz := b.gz + (DIR_VECTOR b.dir).2 }
    [ { turn := some LEFT, dir := TURN_LEFT b.dir,
        nx := b.gx + (DIR_VECTOR (TURN_LEFT b.dir)).1,
        nz := b.gz + (DIR_VECTOR (TURN_LEFT b.dir)).2 },
      { turn := some RIGHT, dir := TURN_RIGHT b.dir,
        nx := b.gx + (DIR_VECTOR (TURN_RIGHT b.dir)).1,
        nz := b.gz + (DIR_VECTOR (TURN_RIGHT b.dir)).2 } ]
    (by rw [hall]; rfl)
  exact htie fun o ho =>
    le_of_eq (heq o (List.mem_cons_of_mem _ ho) _ (List.mem_cons_self _ _))

theorem aggressiveScore_opt (grid : Grid) (predX predZ : Int) (o : MoveOpt) :
    (aggressiveScore grid predX predZ o).opt = o := by
  unfold aggressiveScore
  split <;> rfl

/-- C5: AGGRESSIVE behaves as AVOIDANT when the tracked opponent is
absent or dead; as ENGAGING when the Manhattan distance to the opponent
exceeds 30; otherwise it extrapolates the opponent 3 ticks straight
ahead, scores every safe option with at least 4 clear cells of
look-ahead as `0.6 × (80 − interceptDistance) + 0.4 × floodFill(cap 150)`
and every other safe option as the rejection score −999, selects the
first maximal-score option, falls back to AVOIDANT whenever the best
score is negative, and otherwise acts on an option that was not
rejected. -/
theorem claim_C5_aggressive_behaviour (b : BikeS) (grid : Grid) (player : Option BikeS) :
    (player = none → decideAggressive b grid player = decideAvoidant b grid)
  ∧ (∀ p, player = some p → p.alive = false →
      decideAggressive b grid player = decideAvoidant b grid)
  ∧ (∀ p, player = some p → p.alive = true →
      manhattan b.gx b.gz p.gx p.gz > 30 →
      decideAggressive b grid player = decideEngaging b grid)
  ∧ (∀ p, player = some p → p.alive = true →
      manhattan b.gx b.gz p.gx p.gz ≤ 30 →
      ∀ o₀ os, safeOptions b grid = o₀ :: os →
      ∀ predX predZ : Int,
        predX = p.gx + (DIR_VECTOR p.dir).1 * 3 →
        predZ = p.gz + (DIR_VECTOR p.dir).2 * 3 →
        (∀ o ∈ safeOptions b grid, lookAhead o.nx o.nz o.dir 6 grid < 4 →
            (aggressiveScore grid predX predZ o).score = -999)
        ∧ (∀ o ∈ safeOptions b grid, 4 ≤ lookAhead o.nx o.nz o.dir 6 grid →
            (aggressiveScore grid predX predZ o).score
              = ((80 : ℚ) - (manhattan o.nx o.nz predX predZ : ℚ)) * 0.6
                + (floodFill o.nx o.nz grid 150 : ℚ) * 0.4)
        ∧ (∀ o ∈ safeOptions b grid,
            (aggressiveScore grid predX predZ o).score
              ≤ (firstMax (aggressiveScore grid predX predZ o₀)
                  (os.map (aggressiveScore grid predX predZ))).score)
        ∧ ((firstMax (aggressiveScore grid predX predZ o₀)
              (os.map (aggressiveScore grid predX predZ))).score < 0 →
            decideAggressive b grid player = decideAvoidant b grid)
        ∧ (0 ≤ (firstMax (aggressiveScore grid predX predZ o₀)
              (os.map (aggressiveScore grid predX predZ))).score →
            decideAggressive b grid player
                = (firstMax (aggressiveScore grid predX predZ o₀)
                    (os.map (aggressiveScore grid predX predZ))).opt.turn
              ∧ 4 ≤ lookAhead
                  (firstMax (aggressiveScore grid predX predZ o₀)
                    (os.map (aggressiveScore grid predX predZ))).opt.nx
                  (firstMax (aggressiveScore grid predX predZ o₀)
                    (os.map (aggressiveScore grid predX predZ))).opt.nz
                  (firstMax (aggressiveScore grid predX predZ o₀)
                    (os.map (aggressiveScore grid predX predZ))).opt.dir 6 grid)) := by
  refine ⟨?_, ?_, ?_, ?_⟩
  · intro hp
    rw [hp]
    rfl
  · intro p hp halive
    rw [hp]
    show (if !p.alive then decideAvoidant b grid else _) = decideAvoidant b grid
    rw [halive]
    rfl
  · intro p hp halive hman
    rw [hp]
    show (if !p.alive then decideAvoidant b grid else _) = decideEngaging b grid
    rw [halive]
    show (if safeOptions b grid = [] then none else _) = decideEngaging b grid
    by_cases hopts : safeOptions b grid = []
    · rw [if_pos hopts]
      unfold decideEngaging
      rw [hopts, if_pos rfl]
    · rw [if_neg hopts, if_pos hman]
  · intro p hp halive hman o₀ os hsafe predX predZ hpx hpz
    subst hpx hpz
    obtain ⟨t, ht⟩ := sortDesc_map_head
      (aggressiveScore grid (p.gx + (DIR_VECTOR p.dir).1 * 3)
        (p.gz + (DIR_VECTOR p.dir).2 * 3)) o₀ os
    have hval : decideAggressive b grid player
        = (if (firstMax (aggressiveScore grid (p.gx + (DIR_VECTOR p.dir).1 * 3)
              (p.gz + (DIR_VECTOR p.dir).2 * 3) o₀)
              (os.map (aggressiveScore grid (p.gx + (DIR_VECTOR p.dir).1 * 3)
                (p.gz + (DIR_VECTOR p.dir).2 * 3)))).score < 0
            then decideAvoidant b grid
            else (firstMax (aggressiveScore grid (p.gx + (DIR_VECTOR p.dir).1 * 3)
              (p.gz + (DIR_VECTOR p.dir).2 * 3) o₀)
              (os.map (aggressiveScore grid (p.gx + (DIR_VECTOR p.dir).1 * 3)
                (p.gz + (DIR_VECTOR p.dir).2 * 3)))).opt.turn) := by
      rw [hp]
      show (if !p.alive then decideAvoidant b grid else _) = _
      rw [halive]
      show (if safeOptions b grid = [] then none else _) = _
      rw [hsafe, if_neg (List.cons_ne_nil o₀ os), if_neg (not_lt_of_le hman)]
      dsimp only
      rw [ht]
    refine ⟨?_, ?_, ?_, ?_, ?_⟩
    · intro o _ hla
      unfold aggressiveScore
      rw [if_pos hla]
    · intro o _ hla
      unfold aggressiveScore
      rw [if_neg (not_lt_of_le hla)]
    · intro o ho
      rw [hsafe] at ho
      rcases List.mem_cons.mp ho with rfl | ho
      · exact firstMax_score_le _ _
      · exact firstMax_mem_le _ _ _ (List.mem_map_of_mem _ ho)
    · intro hneg
      rw [hval, if_pos hneg]
    · intro hpos
      constructor
      · rw [hval, if_neg (not_lt_of_le hpos)]
      · by_contra hla
        push_neg at hla
        have hbest := firstMax_cases
          (os.map (aggressiveScore grid (p.gx + (DIR_VECTOR p.dir).1 * 3)
            (p.gz + (DIR_VECTOR p.dir).2 * 3)))
          (aggressiveScore grid (p.gx + (DIR_VECTOR p.dir).1 * 3)
            (p.gz + (DIR_VECTOR p.dir).2 * 3) o₀)
        have : ∃ o, (firstMax (aggressiveScore grid (p.gx + (DIR_VECTOR p.dir).1 * 3)
            (p.gz + (DIR_VECTOR p.dir).2 * 3) o₀)
            (os.map (aggressiveScore grid (p.gx + (DIR_VECTOR p.dir).1 * 3)
              (p.gz + (DIR_VECTOR p.dir).2 * 3))))
            = aggressiveScore grid (p.gx + (DIR_VECTOR p.dir).1 * 3)
              (p.gz + (DIR_VECTOR p.dir).2 * 3) o := by
          rcases hbest with h | h
          · exact ⟨o₀, h⟩
          · obtain ⟨o, _, ho⟩ := List.mem_map.mp h
            exact ⟨o, ho.symm⟩
        obtain ⟨o, hoeq⟩ := this
        rw [hoeq, aggressiveScore_opt] at hla
        have : (aggressiveScore grid (p.gx + (DIR_VECTOR p.dir).1 * 3)
            (p.gz + (DIR_VECTOR p.dir).2 * 3) o).score = -999 := by
          unfold aggressiveScore
          rw [if_pos hla]
        rw [hoeq, this] at hpos
        norm_num at hpos

/-- C5 witness: in the diamond room, AGGRESSIVE (i) equals AVOIDANT
with no opponent, (ii) equals AVOIDANT with a dead opponent,
(iii) equals ENGAGING with an opponent 80 cells away, and (iv) with a
live opponent 2 cells away rejects all three cramped options
(look-ahead 0 < 4) and falls back to AVOIDANT. -/
theorem claim_C5_aggressive_behaviour_witness :
    decideAggressive ⟨1, 10, 10, Dir.EAST, true, none, 0, 0, []⟩
        (fun c => if c = (10, 10) ∨ c = (9, 10) ∨ c = (11, 10) ∨ c = (10, 9) ∨ c = (10, 11)
          then none else some 9) none
      = decideAvoidant ⟨1, 10, 10, Dir.EAST, true, none, 0, 0, []⟩
        (fun c => if c = (10, 10) ∨ c = (9, 10) ∨ c = (11, 10) ∨ c = (10, 9) ∨ c = (10, 11)
          then none else some 9) ∧
    decideAggressive ⟨1, 10, 10, Dir.EAST, true, none, 0, 0, []⟩
        (fun c => if c = (10, 10) ∨ c = (9, 10) ∨ c = (11, 10) ∨ c = (10, 9) ∨ c = (10, 11)
          then none else some 9) (some ⟨9, 12, 10, Dir.EAST, false, none, 0, 0, []⟩)
      = decideAvoidant ⟨1, 10, 10, Dir.EAST, true, none, 0, 0, []⟩
        (fun c => if c = (10, 10) ∨ c = (9, 10) ∨ c = (11, 10) ∨ c = (10, 9) ∨ c = (10, 11)
          then none else some 9) ∧
    decideAggressive ⟨1, 10, 10, Dir.EAST, true, none, 0, 0, []⟩
        (fun c => if c = (10, 10) ∨ c = (9, 10) ∨ c = (11, 10) ∨ c = (10, 9) ∨ c = (10, 11)
          then none else some 9) (some ⟨9, 50, 50, Dir.EAST, true, none, 0, 0, []⟩)
      = decideEngaging ⟨1, 10, 10, Dir.EAST, true, none, 0, 0, []⟩
        (fun c => if c = (10, 10) ∨ c = (9, 10) ∨ c = (11, 10) ∨ c = (10, 9) ∨ c = (10, 11)
          then none else some 9) ∧
    decideAggressive ⟨1, 10, 10, Dir.EAST, true, none, 0, 0, []⟩
        (fun c => if c = (10, 10) ∨ c = (9, 10) ∨ c = (11, 10) ∨ c = (10, 9) ∨ c = (10, 11)
          then none else some 9) (some ⟨9, 12, 10, Dir.EAST, true, none, 0, 0, []⟩)
      = decideAvoidant ⟨1, 10, 10, Dir.EAST, true, none, 0, 0, []⟩
        (fun c => if c = (10, 10) ∨ c = (9, 10) ∨ c = (11, 10) ∨ c = (10, 9) ∨ c = (10, 11)
          then none else some 9) :=
  ⟨(claim_C5_aggressive_behaviour _ _ _).1 rfl,
    (claim_C5_aggressive_behaviour _ _ _).2.1 _ rfl (by decide),
    (claim_C5_aggressive_behaviour _ _ _).2.2.1 _ rfl (by decide) (by decide),
    ((claim_C5_aggressive_behaviour _ _ _).2.2.2 _ rfl (by decide) (by decide)
        ⟨none, Dir.EAST, 11, 10⟩
        [⟨some Side.LEFT, Dir.NORTH, 10, 9⟩, ⟨some Side.RIGHT, Dir.SOUTH, 10, 11⟩]
        (by decide) 15 10 (by decide) (by decide)).2.2.2.1 (by decide)⟩

/-- C7 as stated is false: on a fully open grid with `cap = 2` the BFS
guard `visited.size < cap` admits one expansion of up to four
neighbours, so `floodFill` returns 5 > 2. -/
theorem claim_C7_counterexample :
    floodFill 40 40 (fun _ => none) 2 = 5 ∧ ¬ floodFill 40 40 (fun _ => none) 2 ≤ 2 := by
  have h : floodFill 40 40 (fun _ => none) 2 = 5 := by
    simp [floodFill, bfsLoop, bfsStep, dirs4, isFree, inBounds, GRID_SIZE]
  exact ⟨h, by rw [h]; decide⟩

/-- C7 amended: `floodFill` counts a duplicate-free set of free cells
reachable from the start through free cells; the visited-node cap stops
expansion once `cap` cells are visited, but one final expansion can
overshoot by up to three cells, so the bound is `cap + 3`, not `cap`;
and whenever the result is still below `cap` (the queue emptied first)
the count is exactly the number of reachable cells. -/
theorem claim_C7_floodfill_bound (gx gz : Int) (grid : Grid) (cap : Nat) :
    floodFill gx gz grid cap ≤ cap + 3 ∧
    ∃ L : List Cell, L.Nodup ∧
      (∀ c ∈ L, isFree c.1 c.2 grid = true ∧ Reach grid (gx, gz) c) ∧
      floodFill gx gz grid cap = L.length ∧
      (isFree gx gz grid = true → floodFill gx gz grid cap < cap →
        ∀ c : Cell, Reach grid (gx, gz) c → c ∈ L) := by
  by_cases hfree : isFree gx gz grid = true
  · have hff : floodFill gx gz grid cap
        = (bfsLoop grid cap [(gx, gz)] [(gx, gz)]).length := by
      unfold floodFill
      rw [hfree]
      rfl
    have hinv := bfsInv_init grid (gx, gz) hfree
    obtain ⟨hnd, hsound⟩ := bfsLoop_sound grid cap (gx, gz) _ _ hinv
    refine ⟨?_, bfsLoop grid cap [(gx, gz)] [(gx, gz)], hnd, hsound, hff, ?_⟩
    · rw [hff]
      exact bfsLoop_length_le grid cap _ _ (by simp)
    · intro _ hlt c hreach
      rw [hff] at hlt
      exact bfsLoop_complete grid cap (gx, gz) _ _ hinv hlt c hreach
  · have hff : floodFill gx gz grid cap = 0 := by
      unfold floodFill
      rw [if_pos (by simpa using hfree)]
    refine ⟨by omega, [], List.nodup_nil, by simp, by simpa using hff, ?_⟩
    intro hfree' _ _ _
    exact absurd hfree' hfree

/-- C7 amended witness: in the diamond room `floodFill` from `(11,10)`
with cap 10 is 5 ≤ 13, and since 5 < 10 the counted set is exhaustive —
it contains the two-step-away cell `(10,9)`. -/
theorem claim_C7_floodfill_bound_witness :
    floodFill 11 10
        (fun c => if c = (10, 10) ∨ c = (9, 10) ∨ c = (11, 10) ∨ c = (10, 9) ∨ c = (10, 11)
          then none else some 9) 10 ≤ 13 ∧
    ∃ L : List Cell, L.Nodup ∧
      floodFill 11 10
        (fun c => if c = (10, 10) ∨ c = (9, 10) ∨ c = (11, 10) ∨ c = (10, 9) ∨ c = (10, 11)
          then none else some 9) 10 = L.length ∧
      ((10, 9) : Cell) ∈ L := by
  have hv : floodFill 11 10
      (fun c => if c = (10, 10) ∨ c = (9, 10) ∨ c = (11, 10) ∨ c = (10, 9) ∨ c = (10, 11)
        then none else some 9) 10 = 5 := by
    simp [floodFill, bfsLoop, bfsStep, dirs4, isFree, inBounds, GRID_SIZE]
  obtain ⟨h1, L, hnd, _hfr, hlen, hcomp⟩ := claim_C7_floodfill_bound 11 10
    (fun c => if c = (10, 10) ∨ c = (9, 10) ∨ c = (11, 10) ∨ c = (10, 9) ∨ c = (10, 11)
      then none else some 9) 10
  refine ⟨h1, L, hnd, hlen, ?_⟩
  apply hcomp (by decide) (by rw [hv]; decide)
  exact Relation.ReflTransGen.tail
    (Relation.ReflTransGen.tail Relation.ReflTransGen.refl
      (⟨by decide, (-1, 0), by decide, by decide⟩ :
        BfsEdge _ ((11 : Int), (10 : Int)) ((10 : Int), (10 : Int))))
    (⟨by decide, (0, -1), by decide, by decide⟩ :
      BfsEdge _ ((10 : Int), (10 : Int)) ((10 : Int), (9 : Int)))

/-- C6 witness: a bike at `(10,10)` heading EAST in a symmetric
diamond-shaped room, where all three candidates are safe and score
`5 * 10 + 0 = 50` alike; AVOIDANT picks straight and queues no turn. -/
theorem claim_C6_avoidant_selection_witness :
    safeOptions ⟨1, 10, 10, Dir.EAST, true, none, 0, 0, []⟩
        (fun c => if c = (10, 10) ∨ c = (9, 10) ∨ c = (11, 10) ∨ c = (10, 9) ∨ c = (10, 11)
          then none else some 9)
        = candidates ⟨1, 10, 10, Dir.EAST, true, none, 0, 0, []⟩ ∧
    decideAvoidant ⟨1, 10, 10, Dir.EAST, true, none, 0, 0, []⟩
        (fun c => if c = (10, 10) ∨ c = (9, 10) ∨ c = (11, 10) ∨ c = (10, 9) ∨ c = (10, 11)
          then none else some 9) = none := by
  constructor
  · decide
  · exact (claim_C6_avoidant_selection _ _).2 (by decide) (by
      intro o ho o' ho'
      fin_cases ho <;> fin_cases ho' <;>
        simp [avoidantScore, floodFill, bfsLoop, bfsStep, dirs4, isFree, inBounds,
          GRID_SIZE, lookAhead, lookAheadGo, DIR_VECTOR, TURN_LEFT, TURN_RIGHT])

/-! ## Claim theorems: head-on resolution -/

/-- C3: in every tick, an entity enters the dying set during head-on
resolution exactly when it was already marked by the individual
wall/trail checks or when some other not-yet-marked entity aims at the
same target cell — so every cell targeted by two or more not-yet-dying
entities kills all of them — and the resulting dying set is the same
for every evaluation order of the entities. -/
theorem claim_C3_headon_symmetry (J now : Nat) (grid : Grid) (bikes : List BikeS)
    (hnd : (bikes.map BikeS.id).Nodup) :
    (∀ i, i ∈ tickDying J now grid bikes ↔
      headOnSpec (nextPairs bikes) (dyingPhase1 J now grid bikes) i) ∧
    (∀ bikes', bikes.Perm bikes' →
      tickDying J now grid bikes = tickDying J now grid bikes') := by
  have char : ∀ (bs : List BikeS), (bs.map BikeS.id).Nodup → ∀ i,
      i ∈ tickDying J now grid bs ↔
        headOnSpec (nextPairs bs) (dyingPhase1 J now grid bs) i := by
    intro bs hbs i
    unfold tickDying
    rw [headOnLoop_mem (nextPairs bs) (fun _ => none) (dyingPhase1 J now grid bs) i
      (nextPairs_fst_nodup bs hbs) (by intro c j h; cases h)]
    exact headOnAfter_empty _ _ _
  refine ⟨char bikes hnd, ?_⟩
  intro bikes' hperm
  have hnd' : (bikes'.map BikeS.id).Nodup := ((hperm.map BikeS.id).nodup_iff).mp hnd
  have hpairs : (nextPairs bikes).Perm (nextPairs bikes') := by
    unfold nextPairs
    exact List.Perm.map _ (hperm.filter (·.alive))
  have hphase : dyingPhase1 J now grid bikes = dyingPhase1 J now grid bikes' := by
    unfold dyingPhase1
    exact List.toFinset_eq_of_perm _ _ (List.Perm.map _
      (hperm.filter (fun b => b.alive && collisionDying J now grid b)))
  ext i
  rw [char bikes hnd i, char bikes' hnd' i, hphase]
  exact headOnSpec_perm hpairs _ i

/-- C3 witness: bikes 1 (at `(10,10)` EAST) and 2 (at `(12,10)` WEST)
both target `(11,10)` and both die; bike 3 (at `(20,20)` NORTH) targets
`(20,19)` alone and survives; reversing the bike order yields the same
dying set. -/
theorem claim_C3_headon_symmetry_witness :
    1 ∈ tickDying 100 0 (fun _ => none)
        [⟨1, 10, 10, Dir.EAST, true, none, 0, 0, []⟩,
         ⟨2, 12, 10, Dir.WEST, true, none, 0, 0, []⟩,
         ⟨3, 20, 20, Dir.NORTH, true, none, 0, 0, []⟩] ∧
    2 ∈ tickDying 100 0 (fun _ => none)
        [⟨1, 10, 10, Dir.EAST, true, none, 0, 0, []⟩,
         ⟨2, 12, 10, Dir.WEST, true, none, 0, 0, []⟩,
         ⟨3, 20, 20, Dir.NORTH, true, none, 0, 0, []⟩] ∧
    3 ∉ tickDying 100 0 (fun _ => none)
        [⟨1, 10, 10, Dir.EAST, true, none, 0, 0, []⟩,
         ⟨2, 12, 10, Dir.WEST, true, none, 0, 0, []⟩,
         ⟨3, 20, 20, Dir.NORTH, true, none, 0, 0, []⟩] ∧
    tickDying 100 0 (fun _ => none)
        [⟨1, 10, 10, Dir.EAST, true, none, 0, 0, []⟩,
         ⟨2, 12, 10, Dir.WEST, true, none, 0, 0, []⟩,
         ⟨3, 20, 20, Dir.NORTH, true, none, 0, 0, []⟩]
      = tickDying 100 0 (fun _ => none)
        [⟨3, 20, 20, Dir.NORTH, true, none, 0, 0, []⟩,
         ⟨2, 12, 10, Dir.WEST, true, none, 0, 0, []⟩,
         ⟨1, 10, 10, Dir.EAST, true, none, 0, 0, []⟩] :=
  ⟨((claim_C3_headon_symmetry 100 0 _ _ (by decide)).1 1).mpr (by decide),
   ((claim_C3_headon_symmetry 100 0 _ _ (by decide)).1 2).mpr (by decide),
   fun h => absurd (((claim_C3_headon_symmetry 100 0 _ _ (by decide)).1 3).mp h)
     (by decide),
   (claim_C3_headon_symmetry 100 0 _ _ (by decide)).2 _ (by decide)⟩

/-! ## Tick machinery lemmas -/

theorem step_id (b : BikeS) : (step b).id = b.id := by
  unfold step
  rcases b.pendingTurn with _ | s
  · rfl
  · cases s <;> rfl

theorem step_alive (b : BikeS) : (step b).alive = b.alive := by
  unfold step
  rcases b.pendingTurn with _ | s
  · rfl
  · cases s <;> rfl

theorem step_trail (b : BikeS) : (step b).trail = b.trail := by
  unfold step
  rcases b.pendingTurn with _ | s
  · rfl
  · cases s <;> rfl

/-- `step` moves exactly to the cell `peekNext` predicted. -/
theorem step_pos (b : BikeS) : ((step b).gx, (step b).gz) = peekNext b := by
  unfold step peekNext
  rcases b.pendingTurn with _ | s
  · rfl
  · cases s <;> rfl

/-- A bike never stays put: the predicted next cell differs from the
current cell (every direction vector is non-zero). -/
theorem peekNext_ne_pos (b : BikeS) : peekNext b ≠ (b.gx, b.gz) := by
  unfold peekNext
  rcases b.pendingTurn with _ | s
  · cases b.dir <;>
      · simp [DIR_VECTOR, Prod.ext_iff]
        try omega
  · cases s <;> cases b.dir <;>
      · simp [DIR_VECTOR, TURN_LEFT, TURN_RIGHT, Prod.ext_iff]
        try omega

/-- The fold inside `clearTrailGrid` never changes a cell owned by a
different id. -/
theorem clearTrailFold_foreign (i : Nat) (cells : List Cell) :
    ∀ (g : Grid) (c : Cell) (k : Nat), g c = some k → k ≠ i →
      cells.foldl (fun g c => if g c = some i then setCell g c none else g) g c
        = some k := by
  induction cells with
  | nil => intro g c k hk _; exact hk
  | cons d ds ih =>
    intro g c k hk hki
    show ds.foldl _ (if g d = some i then setCell g d none else g) c = some k
    split
    · apply ih _ _ k _ hki
      unfold setCell
      split
      · rename_i hcd
        rename_i hgd
        rw [hcd] at hk
        rw [hk] at hgd
        cases hgd
        exact absurd rfl hki
      · exact hk
    · exact ih g c k hk hki

/-- The fold inside `clearTrailGrid` keeps empty cells empty. -/
theorem clearTrailFold_none (i : Nat) (cells : List Cell) :
    ∀ (g : Grid) (c : Cell), g c = none →
      cells.foldl (fun g c => if g c = some i then setCell g c none else g) g c
        = none := by
  induction cells with
  | nil => intro g c h; exact h
  | cons d ds ih =>
    intro g c h
    show ds.foldl _ (if g d = some i then setCell g d none else g) c = none
    split
    · apply ih
      unfold setCell
      split
      · rfl
      · exact h
    · exact ih g c h

/-- The fold inside `clearTrailGrid` only erases: each cell keeps its
value or becomes empty. -/
theorem clearTrailFold_cases (i : Nat) (cells : List Cell) :
    ∀ (g : Grid) (c : Cell),
      cells.foldl (fun g c => if g c = some i then setCell g c none else g) g c = g c ∨
      cells.foldl (fun g c => if g c = some i then setCell g c none else g) g c = none := by
  induction cells with
  | nil => intro g c; exact Or.inl rfl
  | cons d ds ih =>
    intro g c
    show ds.foldl _ (if g d = some i then setCell g d none else g) c = g c ∨
      ds.foldl _ (if g d = some i then setCell g d none else g) c = none
    split
    · rcases ih (setCell g d none) c with h | h
      · rw [h]
        unfold setCell
        split
        · exact Or.inr rfl
        · exact Or.inl rfl
      · exact Or.inr h
    · exact ih g c

theorem clearTrailGrid_foreign (b : BikeS) (g : Grid) (c : Cell) (k : Nat)
    (hk : g c = some k) (hki : k ≠ b.id) : clearTrailGrid b g c = some k :=
  clearTrailFold_foreign b.id b.trail g c k hk hki

theorem clearTrailGrid_none (b : BikeS) (g : Grid) (c : Cell)
    (h : g c = none) : clearTrailGrid b g c = none :=
  clearTrailFold_none b.id b.trail g c h

theorem clearTrailGrid_cases (b : BikeS) (g : Grid) (c : Cell) :
    clearTrailGrid b g c = g c ∨ clearTrailGrid b g c = none :=
  clearTrailFold_cases b.id b.trail g c

/-- The bike list after the death phase: dying bikes are killed and
their recorded trail lists emptied, the rest are untouched. -/
theorem applyDeaths_bikes (dy : Finset Nat) :
    ∀ (bs : List BikeS) (g : Grid),
      (applyDeaths dy bs g).1
        = bs.map (fun b => if b.id ∈ dy then clearTrailBike (die b) else b) := by
  intro bs
  induction bs with
  | nil => intro g; rfl
  | cons b tl ih =>
    intro g
    show (if b.id ∈ dy then _ else _ : List BikeS × Grid).1 = _
    by_cases hb : b.id ∈ dy
    · simp only [if_pos hb, List.map_cons, ih]
    · simp only [if_neg hb, List.map_cons, ih]

/-- The death phase keeps empty cells empty. -/
theorem applyDeaths_grid_none (dy : Finset Nat) :
    ∀ (bs : List BikeS) (g : Grid) (c : Cell), g c = none →
      (applyDeaths dy bs g).2 c = none := by
  intro bs
  induction bs with
  | nil => intro g c h; exact h
  | cons b tl ih =>
    intro g c h
    show (if b.id ∈ dy then _ else _ : List BikeS × Grid).2 c = none
    by_cases hb : b.id ∈ dy
    · simp only [if_pos hb]
      exact ih _ c (clearTrailGrid_none b g c h)
    · simp only [if_neg hb]
      exact ih g c h

/-- The death phase only erases cells. -/
theorem applyDeaths_grid_cases (dy : Finset Nat) :
    ∀ (bs : List BikeS) (g : Grid) (c : Cell),
      (applyDeaths dy bs g).2 c = g c ∨ (applyDeaths dy bs g).2 c = none := by
  intro bs
  induction bs with
  | nil => intro g c; exact Or.inl rfl
  | cons b tl ih =>
    intro g c
    show (if b.id ∈ dy then _ else _ : List BikeS × Grid).2 c = g c ∨
      (if b.id ∈ dy then _ else _ : List BikeS × Grid).2 c = none
    by_cases hb : b.id ∈ dy
    · simp only [if_pos hb]
      rcases clearTrailGrid_cases b g c with h | h
      · rcases ih (clearTrailGrid b g) c with h2 | h2
        · rw [h2, h]
          exact Or.inl rfl
        · exact Or.inr h2
      · rcases ih (clearTrailGrid b g) c with h2 | h2
        · rw [h2, h]
          exact Or.inr rfl
        · exact Or.inr h2
    · simp only [if_neg hb]
      exact ih g c

/-- A cell owned by an id that is not dying survives the death phase. -/
theorem applyDeaths_grid_foreign (dy : Finset Nat) :
    ∀ (bs : List BikeS) (g : Grid) (c : Cell) (k : Nat), g c = some k →
      (∀ b ∈ bs, b.id ∈ dy → b.id ≠ k) →
      (applyDeaths dy bs g).2 c = some k := by
  intro bs
  induction bs with
  | nil => intro g c k hk _; exact hk
  | cons b tl ih =>
    intro g c k hk hdy
    show (if b.id ∈ dy then _ else _ : List BikeS × Grid).2 c = some k
    by_cases hb : b.id ∈ dy
    · simp only [if_pos hb]
      refine ih _ c k ?_ fun b' hb' => hdy b' (List.mem_cons_of_mem _ hb')
      exact clearTrailGrid_foreign b g c k hk
        fun h => hdy b (List.mem_cons_self _ _) hb h.symm
    · simp only [if_neg hb]
      exact ih g c k hk fun b' hb' => hdy b' (List.mem_cons_of_mem _ hb')

/-- The bike list after the commit phase: dead bikes untouched, alive
airborne bikes just step, alive grounded bikes record their current
cell and step. -/
theorem commitMoves_bikes (J now : Nat) :
    ∀ (bs : List BikeS) (g : Grid),
      (commitMoves J now bs g).1 = bs.map (fun b =>
        if !b.alive then b
        else if isJumping J now b then step b
        else step (recordTrailCell b (b.gx, b.gz))) := by
  intro bs g
  induction bs, g using commitMoves.induct J now with
  | case1 g => rfl
  | case2 b bs g hdead ih =>
    simp only [commitMoves, if_pos hdead, List.map_cons, ih]
  | case3 b bs g halive hjump ih =>
    simp only [commitMoves, if_neg halive, if_pos hjump, List.map_cons, ih]
  | case4 b bs g halive hjump ih =>
    simp only [commitMoves, if_neg halive, if_neg hjump, List.map_cons, ih]

/-- A cell that is no alive bike's current position is untouched by the
commit phase. -/
theorem commitMoves_grid_untouched (J now : Nat) :
    ∀ (bs : List BikeS) (g : Grid) (c : Cell),
      (∀ b ∈ bs, b.alive = true → (b.gx, b.gz) ≠ c) →
      (commitMoves J now bs g).2 c = g c := by
  intro bs g
  induction bs, g using commitMoves.induct J now with
  | case1 g => intro c _; rfl
  | case2 b bs g hdead ih =>
    intro c hc
    simp only [commitMoves, if_pos hdead]
    exact ih c fun b' hb' => hc b' (List.mem_cons_of_mem _ hb')
  | case3 b bs g halive hjump ih =>
    intro c hc
    simp only [commitMoves, if_neg halive, if_pos hjump]
    exact ih c fun b' hb' => hc b' (List.mem_cons_of_mem _ hb')
  | case4 b bs g halive hjump ih =>
    intro c hc
    have hal : b.alive = true := by simpa using halive
    simp only [commitMoves, if_neg halive, if_neg hjump]
    rw [ih c fun b' hb' => hc b' (List.mem_cons_of_mem _ hb')]
    unfold claim setCell
    rw [if_neg fun h => hc b (List.mem_cons_self _ _) hal h.symm]

/-- Every grid change made by the commit phase is an alive grounded
bike claiming its own current cell. -/
theorem commitMoves_grid_spec (J now : Nat) :
    ∀ (bs : List BikeS) (g : Grid) (c : Cell),
      (commitMoves J now bs g).2 c = g c ∨
      ∃ x ∈ bs, x.alive = true ∧ isJumping J now x = false ∧ (x.gx, x.gz) = c ∧
        (commitMoves J now bs g).2 c = some x.id := by
  intro bs g
  induction bs, g using commitMoves.induct J now with
  | case1 g => intro c; exact Or.inl rfl
  | case2 b bs g hdead ih =>
    intro c
    simp only [commitMoves, if_pos hdead]
    rcases ih c with h | ⟨x, hx, h⟩
    · exact Or.inl h
    · exact Or.inr ⟨x, List.mem_cons_of_mem _ hx, h⟩
  | case3 b bs g halive hjump ih =>
    intro c
    simp only [commitMoves, if_neg halive, if_pos hjump]
    rcases ih c with h | ⟨x, hx, h⟩
    · exact Or.inl h
    · exact Or.inr ⟨x, List.mem_cons_of_mem _ hx, h⟩
  | case4 b bs g halive hjump ih =>
    intro c
    have hal : b.alive = true := by simpa using halive
    have hjf : isJumping J now b = false := by simpa using hjump
    simp only [commitMoves, if_neg halive, if_neg hjump]
    rcases ih c with h | ⟨x, hx, h⟩
    · rw [h]
      unfold claim setCell
      by_cases hc : c = (b.gx, b.gz)
      · rw [if_pos hc]
        exact Or.inr ⟨b, List.mem_cons_self _ _, hal, hjf, hc.symm, rfl⟩
      · rw [if_neg hc]
        exact Or.inl rfl
    · exact Or.inr ⟨x, List.mem_cons_of_mem _ hx, h⟩

/-- An alive grounded bike's current cell is owned by that bike after
the commit phase, provided no other alive grounded bike shares the
position. -/
theorem commitMoves_grid_write (J now : Nat) (b : BikeS)
    (halive : b.alive = true) (hjump : isJumping J now b = false) :
    ∀ (bs : List BikeS) (g : Grid),
      (∀ x ∈ bs, x.alive = true → isJumping J now x = false → x ≠ b →
        (x.gx, x.gz) ≠ (b.gx, b.gz)) →
      (b ∈ bs ∨ g (b.gx, b.gz) = some b.id) →
      (commitMoves J now bs g).2 (b.gx, b.gz) = some b.id := by
  intro bs g
  induction bs, g using commitMoves.induct J now with
  | case1 g =>
    intro _ hm
    rcases hm with hm | hm
    · cases hm
    · exact hm
  | case2 x bs g hdead ih =>
    intro hdist hm
    simp only [commitMoves, if_pos hdead]
    apply ih (fun x' hx' => hdist x' (List.mem_cons_of_mem _ hx'))
    rcases hm with hm | hm
    · rcases List.mem_cons.mp hm with rfl | hm
      · rw [halive] at hdead
        cases hdead
      · exact Or.inl hm
    · exact Or.inr hm
  | case3 x bs g hxal hxj ih =>
    intro hdist hm
    simp only [commitMoves, if_neg hxal, if_pos hxj]
    apply ih (fun x' hx' => hdist x' (List.mem_cons_of_mem _ hx'))
    rcases hm with hm | hm
    · rcases List.mem_cons.mp hm with rfl | hm
      · rw [hjump] at hxj
        cases hxj
      · exact Or.inl hm
    · exact Or.inr hm
  | case4 x bs g hxal hxj ih =>
    intro hdist hm
    have hxalive : x.alive = true := by simpa using hxal
    have hxjf : isJumping J now x = false := by simpa using hxj
    simp only [commitMoves, if_neg hxal, if_neg hxj]
    apply ih (fun x' hx' => hdist x' (List.mem_cons_of_mem _ hx'))
    by_cases hxb : x = b
    · subst hxb
      refine Or.inr ?_
      unfold claim setCell
      rw [if_pos rfl]
    · rcases hm with hm | hm
      · rcases List.mem_cons.mp hm with rfl | hm
        · exact absurd rfl hxb
        · exact Or.inl hm
      · refine Or.inr ?_
        unfold claim setCell
        rw [if_neg fun h =>
          hdist x (List.mem_cons_self _ _) hxalive hxjf hxb h.symm]
        exact hm

/-- Distinct ids mean distinct list entries. -/
theorem mem_id_inj {bikes : List BikeS} (hnd : (bikes.map BikeS.id).Nodup)
    {b₁ b₂ : BikeS} (h₁ : b₁ ∈ bikes) (h₂ : b₂ ∈ bikes) (h : b₁.id = b₂.id) :
    b₁ = b₂ :=
  List.inj_on_of_nodup_map hnd h₁ h₂ h

/-- Membership in the phase-1 dying set. -/
theorem mem_dyingPhase1 (J now : Nat) (grid : Grid) (bikes : List BikeS) (i : Nat) :
    i ∈ dyingPhase1 J now grid bikes ↔
      ∃ b ∈ bikes, b.id = i ∧ b.alive = true ∧ collisionDying J now grid b = true := by
  unfold dyingPhase1
  rw [List.mem_toFinset, List.mem_map]
  constructor
  · rintro ⟨b, hb, rfl⟩
    rw [List.mem_filter] at hb
    obtain ⟨hmem, hcond⟩ := hb
    rw [Bool.and_eq_true] at hcond
    exact ⟨b, hmem, rfl, hcond.1, hcond.2⟩
  · rintro ⟨b, hmem, rfl, hal, hcd⟩
    refine ⟨b, ?_, rfl⟩
    rw [List.mem_filter]
    exact ⟨hmem, by rw [Bool.and_eq_true]; exact ⟨hal, hcd⟩⟩

/-- A bike that passes its own collision check and shares its target
with no other alive bike is not in the tick's dying set. -/
theorem not_mem_tickDying (J now : Nat) (grid : Grid) (bikes : List BikeS)
    (hnd : (bikes.map BikeS.id).Nodup) (b : BikeS) (hb : b ∈ bikes)
    (hcd : collisionDying J now grid b = false)
    (htarget : ∀ b' ∈ bikes, b' ≠ b → b'.alive = true → peekNext b' ≠ peekNext b) :
    b.id ∉ tickDying J now grid bikes := by
  intro hdy
  have hchar := headOnLoop_mem (nextPairs bikes) (fun _ => none)
    (dyingPhase1 J now grid bikes) b.id (nextPairs_fst_nodup bikes hnd)
    (by intro c j h; cases h)
  rw [show tickDying J now grid bikes
      = headOnLoop (nextPairs bikes) (fun _ => none) (dyingPhase1 J now grid bikes)
      from rfl] at hdy
  rw [hchar, headOnAfter_empty] at hdy
  have hnotphase1 : b.id ∉ dyingPhase1 J now grid bikes := by
    rw [mem_dyingPhase1]
    rintro ⟨b', hb', hid, _, hcd'⟩
    rw [mem_id_inj hnd hb' hb hid] at hcd'
    rw [hcd] at hcd'
    cases hcd'
  unfold headOnSpec at hdy
  rcases hdy with hdy | ⟨p, hp, hpi, _, q, hq, hqi, hqc, hqd⟩
  · exact hnotphase1 hdy
  · -- p is b's own pair, q another alive bike aiming at the same cell
    unfold nextPairs at hp hq
    obtain ⟨bp, hbp, rfl⟩ := List.mem_map.mp hp
    obtain ⟨bq, hbq, rfl⟩ := List.mem_map.mp hq
    rw [List.mem_filter] at hbp hbq
    have hbpb : bp = b := mem_id_inj hnd hbp.1 hb hpi
    subst hbpb
    have hqb : bq ≠ bp := fun h => hqi (by rw [h])
    exact htarget bq hbq.1 hqb (by simpa using hbq.2) (by simpa using hqc)

/-! ## Claim theorems: the tick and the current cell -/

/-- C9: collision checks examine only an entity's next cell — the
per-bike test is unchanged under any rewrite of the grid at the
entity's current cell — so an alive grounded entity standing on a cell
claimed by another entity (as after landing from a jump on a trail), 
whose free in-bounds target no other alive entity shares or occupies,
is not eliminated for occupying that cell: it survives the tick, claims
its current cell for itself, records it as its own trail cell, and
moves on to the predicted next cell. -/
theorem claim_C9_current_cell_ignored (J now : Nat) (grid : Grid) (bikes : List BikeS)
    (b : BikeS)
    (hnd : (bikes.map BikeS.id).Nodup) (hb : b ∈ bikes)
    (halive : b.alive = true) (hground : isJumping J now b = false)
    (hin : oobCell (peekNext b) = false)
    (hfree : grid (peekNext b) = none)
    (htarget : ∀ b' ∈ bikes, b' ≠ b → b'.alive = true → peekNext b' ≠ peekNext b)
    (hpos : ∀ b' ∈ bikes, b' ≠ b → b'.alive = true → (b'.gx, b'.gz) ≠ (b.gx, b.gz)) :
    (∀ v, collisionDying J now (setCell grid (b.gx, b.gz) v) b
        = collisionDying J now grid b) ∧
    (∃ x ∈ (tickCore J now bikes grid).1, x.id = b.id ∧ x.alive = true ∧
      (b.gx, b.gz) ∈ x.trail ∧ (x.gx, x.gz) = peekNext b) ∧
    (tickCore J now bikes grid).2 (b.gx, b.gz) = some b.id := by
  have hcd : collisionDying J now grid b = false := by
    unfold collisionDying
    rw [hin, hground, hfree]
    rfl
  have hndy : b.id ∉ tickDying J now grid bikes :=
    not_mem_tickDying J now grid bikes hnd b hb hcd htarget
  have hmem1 : b ∈ (applyDeaths (tickDying J now grid bikes) bikes grid).1 := by
    rw [applyDeaths_bikes]
    have := List.mem_map_of_mem
      (fun x => if x.id ∈ tickDying J now grid bikes then clearTrailBike (die x) else x) hb
    dsimp only at this
    rwa [if_neg hndy] at this
  have halive1 : ∀ x ∈ (applyDeaths (tickDying J now grid bikes) bikes grid).1,
      x.alive = true → x ∈ bikes := by
    intro x hx hxal
    rw [applyDeaths_bikes] at hx
    obtain ⟨b', hb', hb'x⟩ := List.mem_map.mp hx
    by_cases hdy : b'.id ∈ tickDying J now grid bikes
    · rw [if_pos hdy] at hb'x
      rw [← hb'x] at hxal
      cases hxal
    · rw [if_neg hdy] at hb'x
      rw [← hb'x]
      exact hb'
  refine ⟨?_, ?_, ?_⟩
  · intro v
    have hread : setCell grid (b.gx, b.gz) v (peekNext b) = grid (peekNext b) := by
      unfold setCell
      rw [if_neg (peekNext_ne_pos b)]
    unfold collisionDying
    rw [hread]
  · refine ⟨step (recordTrailCell b (b.gx, b.gz)), ?_, ?_, ?_, ?_, ?_⟩
    · show _ ∈ (commitMoves J now (applyDeaths (tickDying J now grid bikes) bikes grid).1
        (applyDeaths (tickDying J now grid bikes) bikes grid).2).1
      rw [commitMoves_bikes]
      have := List.mem_map_of_mem (fun x =>
        if !x.alive then x
        else if isJumping J now x then step x
        else step (recordTrailCell x (x.gx, x.gz))) hmem1
      dsimp only at this
      rwa [show (if !b.alive then b
        else if isJumping J now b then step b
        else step (recordTrailCell b (b.gx, b.gz)))
          = step (recordTrailCell b (b.gx, b.gz)) from by
        simp [halive, hground]] at this
    · rw [step_id]
      rfl
    · rw [step_alive]
      exact halive
    · rw [step_trail]
      exact List.mem_append_right _ (List.mem_singleton_self _)
    · rw [step_pos]
      rfl
  · show (commitMoves J now (applyDeaths (tickDying J now grid bikes) bikes grid).1
      (applyDeaths (tickDying J now grid bikes) bikes grid).2).2 (b.gx, b.gz) = some b.id
    apply commitMoves_grid_write J now b halive hground
    · intro x hx hxal _ hxb
      exact hpos x (halive1 x hx hxal) hxb hxal
    · exact Or.inl hmem1

/-- C9 witness: bike 1 stands at `(11,10)` on a cell recorded in bike
2's trail and owned by 2 in the grid; its target `(12,10)` is free and
unshared, so the tick leaves it alive, hands it cell `(11,10)` in the
grid, appends `(11,10)` to its trail, and moves it to `(12,10)`. -/
theorem claim_C9_current_cell_ignored_witness :
    collisionDying 100 0
        (setCell (fun c => if c = ((11 : Int), (10 : Int)) then some 2 else none)
          (11, 10) none)
        ⟨1, 11, 10, Dir.EAST, true, none, 0, 0, []⟩
      = collisionDying 100 0
        (fun c => if c = ((11 : Int), (10 : Int)) then some 2 else none)
        ⟨1, 11, 10, Dir.EAST, true, none, 0, 0, []⟩ ∧
    (∃ x ∈ (tickCore 100 0
        [⟨1, 11, 10, Dir.EAST, true, none, 0, 0, []⟩,
         ⟨2, 20, 20, Dir.NORTH, true, none, 0, 0, [(11, 10)]⟩]
        (fun c => if c = ((11 : Int), (10 : Int)) then some 2 else none)).1,
      x.id = 1 ∧ x.alive = true ∧ ((11 : Int), (10 : Int)) ∈ x.trail ∧
        (x.gx, x.gz) = ((12 : Int), (10 : Int))) ∧
    (tickCore 100 0
        [⟨1, 11, 10, Dir.EAST, true, none, 0, 0, []⟩,
         ⟨2, 20, 20, Dir.NORTH, true, none, 0, 0, [(11, 10)]⟩]
        (fun c => if c = ((11 : Int), (10 : Int)) then some 2 else none)).2 (11, 10)
      = some 1 := by
  obtain ⟨h1, h2, h3⟩ := claim_C9_current_cell_ignored 100 0
    (fun c => if c = ((11 : Int), (10 : Int)) then some 2 else none)
    [⟨1, 11, 10, Dir.EAST, true, none, 0, 0, []⟩,
     ⟨2, 20, 20, Dir.NORTH, true, none, 0, 0, [(11, 10)]⟩]
    ⟨1, 11, 10, Dir.EAST, true, none, 0, 0, []⟩
    (by decide) (by decide) (by decide) (by decide) (by decide) (by decide)
    (by decide) (by decide)
  exact ⟨h1 none, h2, h3⟩

/-- `c` is one of the recorded trail cells of the entity with identity
`i`. -/
def cellOwnedByTrail (l : List BikeS) (c : Cell) (i : Nat) : Prop :=
  ∃ b ∈ l, b.id = i ∧ c ∈ b.trail

instance (l : List BikeS) (c : Cell) (i : Nat) : Decidable (cellOwnedByTrail l c i) := by
  unfold cellOwnedByTrail
  infer_instance

/-- The tailgating scenario refuting C1: bike 1 (at `(13,9)` heading
SOUTH) enters the cell bike 2 (at `(13,10)` heading EAST) vacates, one
tick before bike 2's commit claims it.  Both trails and all grid claims
are consistent and disjoint at the start, and neither bike ever jumps. -/
def tailgateBikes : List BikeS :=
  [⟨1, 13, 9, Dir.SOUTH, true, none, 0, 0, [(13, 8)]⟩,
   ⟨2, 13, 10, Dir.EAST, true, none, 0, 0, [(12, 10)]⟩]

/-- The grid of the tailgating scenario: exactly the two recorded trail
cells are claimed. -/
def tailgateGrid : Grid :=
  fun c => if c = (13, 8) then some 1 else if c = (12, 10) then some 2 else none

/-- The tailgating scenario after one tick. -/
def tailgateTick1 : List BikeS × Grid := tickCore 150 0 tailgateBikes tailgateGrid

/-- The tailgating scenario after two ticks. -/
def tailgateTick2 : List BikeS × Grid := tickCore 150 100 tailgateTick1.1 tailgateTick1.2

/-- C1 as stated is false.  From a state whose trails are disjoint and
consistent with the grid and whose bikes stand on unclaimed cells, two
ticks of plain driving — bike 1 tailgating bike 2 — put cell `(13,10)`
into both bikes' recorded trail-cell sets, and the second tick's
commit-moves phase reassigns that cell from live bike 2 to bike 1. -/
theorem claim_C1_counterexample :
    (¬ cellOwnedByTrail tailgateBikes (13, 8) 2) ∧
    (¬ cellOwnedByTrail tailgateBikes (12, 10) 1) ∧
    tailgateGrid (13, 9) = none ∧ tailgateGrid (13, 10) = none ∧
    tailgateTick1.2 (13, 10) = some 2 ∧
    (∃ x ∈ tailgateTick1.1, x.id = 2 ∧ x.alive = true) ∧
    tailgateTick2.2 (13, 10) = some 1 ∧
    cellOwnedByTrail tailgateTick2.1 (13, 10) 1 ∧
    cellOwnedByTrail tailgateTick2.1 (13, 10) 2 ∧
    (∃ x ∈ tailgateTick2.1, x.id = 2 ∧ x.alive = true) := by
  decide

/-- Alive bikes surviving the death phase are original list entries. -/
theorem applyDeaths_alive_mem (dy : Finset Nat) (bs : List BikeS) (g : Grid) :
    ∀ x ∈ (applyDeaths dy bs g).1, x.alive = true → x ∈ bs := by
  intro x hx hxal
  rw [applyDeaths_bikes] at hx
  obtain ⟨b', hb', hb'x⟩ := List.mem_map.mp hx
  by_cases hdy : b'.id ∈ dy
  · rw [if_pos hdy] at hb'x
    rw [← hb'x] at hxal
    cases hxal
  · rw [if_neg hdy] at hb'x
    rw [← hb'x]
    exact hb'

/-- After a tick, each bike's recorded trail list is empty (it died),
unchanged, or extended by its own previous cell (it was alive and
grounded). -/
theorem tick_trail_spec (J now : Nat) (grid : Grid) (bikes : List BikeS) :
    ∀ x ∈ (tickCore J now bikes grid).1,
      ∃ b ∈ bikes, x.id = b.id ∧
        (x.trail = [] ∨ x.trail = b.trail ∨
          (b.alive = true ∧ x.trail = b.trail ++ [(b.gx, b.gz)])) := by
  intro x hx
  replace hx : x ∈ (commitMoves J now
      (applyDeaths (tickDying J now grid bikes) bikes grid).1
      (applyDeaths (tickDying J now grid bikes) bikes grid).2).1 := hx
  rw [commitMoves_bikes, applyDeaths_bikes, List.map_map] at hx
  obtain ⟨b, hb, hbx⟩ := List.mem_map.mp hx
  refine ⟨b, hb, ?_⟩
  dsimp only [Function.comp] at hbx
  by_cases hdy : b.id ∈ tickDying J now grid bikes
  · rw [if_pos hdy] at hbx
    rw [← hbx]
    exact ⟨rfl, Or.inl rfl⟩
  · rw [if_neg hdy] at hbx
    by_cases hal : b.alive = true
    · by_cases hj : isJumping J now b = true
      · rw [show (if !b.alive then b else if isJumping J now b then step b
          else step (recordTrailCell b (b.gx, b.gz))) = step b from by
            simp [hal, hj]] at hbx
        rw [← hbx, step_id, step_trail]
        exact ⟨rfl, Or.inr (Or.inl rfl)⟩
      · rw [show (if !b.alive then b else if isJumping J now b then step b
          else step (recordTrailCell b (b.gx, b.gz)))
            = step (recordTrailCell b (b.gx, b.gz)) from by
            simp [hal, hj]] at hbx
        rw [← hbx, step_id, step_trail]
        exact ⟨rfl, Or.inr (Or.inr ⟨hal, rfl⟩)⟩
    · rw [show (if !b.alive then b else if isJumping J now b then step b
        else step (recordTrailCell b (b.gx, b.gz))) = b from by
          simp [Bool.not_eq_true] at hal
          simp [hal]] at hbx
      rw [← hbx]
      exact ⟨rfl, Or.inr (Or.inl rfl)⟩

/-- C1 amended: the per-tick exclusivity that actually holds.  Provided
every cell recorded in a trail is owned by its recorder, every alive
entity stands on a cell that is unclaimed or its own (this is what
tailgating and jump landings violate), and alive entities occupy
distinct cells, then a tick never changes a claimed cell to a
different owner, and trail-cell sets of distinct identities stay
disjoint. -/
theorem claim_C1_cell_exclusivity (J now : Nat) (grid : Grid) (bikes : List BikeS)
    (hcoh : ∀ b ∈ bikes, ∀ c ∈ b.trail, grid c = some b.id)
    (hown : ∀ b ∈ bikes, b.alive = true →
      grid (b.gx, b.gz) = none ∨ grid (b.gx, b.gz) = some b.id)
    (hdist : ∀ b ∈ bikes, ∀ b' ∈ bikes, b ≠ b' → b.alive = true → b'.alive = true →
      (b.gx, b.gz) ≠ (b'.gx, b'.gz)) :
    (∀ c k k', grid c = some k → (tickCore J now bikes grid).2 c = some k' → k' = k) ∧
    (∀ c i i', cellOwnedByTrail (tickCore J now bikes grid).1 c i →
      cellOwnedByTrail (tickCore J now bikes grid).1 c i' → i = i') := by
  have howner : ∀ c i, cellOwnedByTrail (tickCore J now bikes grid).1 c i →
      grid c = some i ∨ ∃ b ∈ bikes, b.id = i ∧ b.alive = true ∧ (b.gx, b.gz) = c := by
    intro c i ⟨x, hx, hxi, hxc⟩
    obtain ⟨b, hb, hid, htrail⟩ := tick_trail_spec J now grid bikes x hx
    rcases htrail with h | h | ⟨hal, h⟩
    · rw [h] at hxc
      cases hxc
    · rw [h] at hxc
      exact Or.inl (by rw [← hxi, hid]; exact hcoh b hb c hxc)
    · rw [h] at hxc
      rcases List.mem_append.mp hxc with hxc | hxc
      · exact Or.inl (by rw [← hxi, hid]; exact hcoh b hb c hxc)
      · exact Or.inr ⟨b, hb, by rw [← hxi, hid], hal,
          (List.mem_singleton.mp hxc).symm⟩
  constructor
  · intro c k k' hk hk'
    replace hk' : (commitMoves J now
        (applyDeaths (tickDying J now grid bikes) bikes grid).1
        (applyDeaths (tickDying J now grid bikes) bikes grid).2).2 c = some k' := hk'
    rcases commitMoves_grid_spec J now
      (applyDeaths (tickDying J now grid bikes) bikes grid).1
      (applyDeaths (tickDying J now grid bikes) bikes grid).2 c with h | ⟨x, hx, hxal, _, hxc, hval⟩
    · rw [h] at hk'
      rcases applyDeaths_grid_cases (tickDying J now grid bikes) bikes grid c with h2 | h2
      · rw [hk', hk] at h2
        cases h2
        rfl
      · rw [hk'] at h2
        cases h2
    · have hxb : x ∈ bikes :=
        applyDeaths_alive_mem (tickDying J now grid bikes) bikes grid x hx hxal
      rcases hown x hxb hxal with h2 | h2
      · rw [hxc, hk] at h2
        cases h2
      · rw [hxc, hk] at h2
        rw [hval] at hk'
        cases hk'
        cases h2
        rfl
  · intro c i i' hi hi'
    rcases howner c i hi with h | ⟨b, hb, hbi, hbal, hbc⟩ <;>
      rcases howner c i' hi' with h' | ⟨b', hb', hbi', hbal', hbc'⟩
    · rw [h] at h'
      cases h'
      rfl
    · rcases hown b' hb' hbal' with h2 | h2
      · rw [hbc', h] at h2
        cases h2
      · rw [hbc', h] at h2
        cases h2
        rw [← hbi']
    · rcases hown b hb hbal with h2 | h2
      · rw [hbc, h'] at h2
        cases h2
      · rw [hbc, h'] at h2
        cases h2
        rw [← hbi]
    · by_cases hbb : b = b'
      · rw [← hbi, ← hbi', hbb]
      · exact absurd (hbc.trans hbc'.symm) (hdist b hb b' hb' hbb hbal hbal')

/-- C1 amended witness: two far-apart compliant bikes; after one tick
the cell `(10,10)` that bike 1 vacated and claimed belongs to bike 1's
trail-cell set and provably no other identity's. -/
theorem claim_C1_cell_exclusivity_witness :
    cellOwnedByTrail (tickCore 100 0
        [⟨1, 10, 10, Dir.EAST, true, none, 0, 0, [(9, 10)]⟩,
         ⟨2, 20, 20, Dir.NORTH, true, none, 0, 0, [(20, 21)]⟩]
        (fun c => if c = (9, 10) then some 1
          else if c = (20, 21) then some 2 else none)).1 (10, 10) 1 ∧
    ¬ cellOwnedByTrail (tickCore 100 0
        [⟨1, 10, 10, Dir.EAST, true, none, 0, 0, [(9, 10)]⟩,
         ⟨2, 20, 20, Dir.NORTH, true, none, 0, 0, [(20, 21)]⟩]
        (fun c => if c = (9, 10) then some 1
          else if c = (20, 21) then some 2 else none)).1 (10, 10) 2 := by
  have h1 : cellOwnedByTrail (tickCore 100 0
      [⟨1, 10, 10, Dir.EAST, true, none, 0, 0, [(9, 10)]⟩,
       ⟨2, 20, 20, Dir.NORTH, true, none, 0, 0, [(20, 21)]⟩]
      (fun c => if c = (9, 10) then some 1
        else if c = (20, 21) then some 2 else none)).1 (10, 10) 1 := by decide
  refine ⟨h1, fun h2 => ?_⟩
  have := (claim_C1_cell_exclusivity 100 0
    (fun c => if c = (9, 10) then some 1
      else if c = (20, 21) then some 2 else none)
    [⟨1, 10, 10, Dir.EAST, true, none, 0, 0, [(9, 10)]⟩,
     ⟨2, 20, 20, Dir.NORTH, true, none, 0, 0, [(20, 21)]⟩]
    (by decide) (by decide) (by decide)).2 (10, 10) 2 1 h2 h1
  cases this

end LightBike
